import Mathlib

/--
Verification development for the Bulgarian-laws batch scraping pipeline.
JavaScript strings are modelled as `List Char` (all characters involved lie in
the Basic Multilingual Plane, where JS UTF-16 length and codepoint count agree).
Machine integers are `Nat`/`Int`; fallible steps return `Option`.
-/
def jsWhitespace : List Char :=
  [0x09, 0x0a, 0x0b, 0x0c, 0x0d, 0x20, 0xa0, 0x1680,
   0x2000, 0x2001, 0x2002, 0x2003, 0x2004, 0x2005, 0x2006, 0x2007,
   0x2008, 0x2009, 0x200a, 0x2028, 0x2029, 0x202f, 0x205f, 0x3000,
   0xfeff].map Char.ofNat

/-- JS whitespace test (the character class of the regex token for whitespace,
also the set stripped by `String.prototype.trim`). -/
def isWs (c : Char) : Bool := jsWhitespace.contains c

/-- Case folding as performed by the JS case-insensitive regex flag and
`toLowerCase`, restricted to the character ranges that occur in this
repository's patterns: ASCII letters and the Cyrillic block А..Я / Ё. -/
def foldChar (c : Char) : Char :=
  let n := c.toNat
  if 0x41 ≤ n ∧ n ≤ 0x5a then Char.ofNat (n + 0x20)
  else if 0x410 ≤ n ∧ n ≤ 0x42f then Char.ofNat (n + 0x20)
  else if n = 0x401 then Char.ofNat 0x451
  else c

/-- Model of `String.prototype.trim`: strip leading and trailing whitespace. -/
def trimList (l : List Char) : List Char :=
  ((l.dropWhile isWs).reverse.dropWhile isWs).reverse

/-- ASCII digit test (the regex digit character class). -/
def isDigit (c : Char) : Bool := decide ('0' ≤ c ∧ c ≤ '9')

/-- Parse a list of decimal digits into a `Nat` (models `parseInt` on a digit
string). -/
def parseDigits (l : List Char) : Nat :=
  l.foldl (fun acc c => acc * 10 + (c.toNat - '0'.toNat)) 0

/-- Executable substring test for `String.prototype.includes` (after any
required case folding has been applied to both sides by the caller). -/
def containsSeq (needle hay : List Char) : Bool :=
  (List.range (hay.length + 1)).any (fun i => needle.isPrefixOf (hay.drop i))

/-- First index at which `needle` occurs in `hay`, if any. -/
def firstIndexOfSeq (needle hay : List Char) : Option Nat :=
  (List.range (hay.length + 1)).find? (fun i => needle.isPrefixOf (hay.drop i))

/--
Model of `schemas.js` / `extractLawId`: the regex for a law-detail URL captures
the maximal digit run following the literal path segment slash-ID-slash; the
function returns that captured digit string or null.
-/
def extractLawId (url : List Char) : Option (List Char) :=
  match (List.range (url.length + 1)).find?
      (fun i => ("/ID/".data).isPrefixOf (url.drop i)
        && isDigit ((url.drop (i + 4)).headD ' ')) with
  | some i => some ((url.drop (i + 4)).takeWhile isDigit)
  | none => none

/-- Input law record from the master worklist (`schemas.js` InputLaw). -/
structure InputLaw where
  title : List Char
  date : List Char
  link : List Char
deriving DecidableEq, Repr

/-- The fields of the `scrapingData` argument of `createScrapedLaw`; JS absent
or undefined fields are `none`.  A field defaulted with the JS logical-or
operator treats both absence and the empty string / zero as falsy. -/
structure ScrapingData where
  actualTitle : Option (List Char) := none
  metadata : Option (List (List Char)) := none
  fullText : Option (List Char) := none
  error : Option (List Char) := none
  retryCount : Option Nat := none
deriving DecidableEq, Repr

/-- Output record shape (`schemas.js` ScrapedLaw). -/
structure ScrapedLaw where
  title : List Char
  date : List Char
  link : List Char
  lawId : Option (List Char)
  actualTitle : List Char
  metadata : List (List Char)
  fullText : List Char
  textLength : Nat
  scrapedAt : List Char
  isComplete : Bool
  error : Option (List Char)
  retryCount : Nat
deriving DecidableEq, Repr

/--
Model of `schemas.js` / `createScrapedLaw`.  The impure timestamp
`new Date().toISOString()` is threaded in as the explicit argument `now`.
`textLength` is the length of the same defaulted text expression that is
stored in `fullText`; `isComplete` models the JS boolean coercion of
`scrapingData.fullText and scrapingData.fullText.length > 50` (falsy when the
text is absent or empty). -/
def createScrapedLaw (inputLaw : InputLaw) (d : ScrapingData) (now : List Char) :
    ScrapedLaw :=
  { title := inputLaw.title
    date := inputLaw.date
    link := inputLaw.link
    lawId := extractLawId inputLaw.link
    actualTitle := d.actualTitle.getD []
    metadata := d.metadata.getD []
    fullText := d.fullText.getD []
    textLength := (d.fullText.getD []).length
    scrapedAt := now
    isComplete :=
      match d.fullText with
      | none => false
      | some t => !t.isEmpty && decide (50 < t.length)
    error := d.error
    retryCount := d.retryCount.getD 0 }

/--
Model of the save-gated attempt tail of `scrapeSingleLaw`
(`law-scraper.js` lines 224-247): the scraped record is created, its
`isComplete` flag is checked, and the function throws (yielding no saved file,
modelled by `none`) before `saveLawToFile` whenever the flag is false; the
record is persisted (`some`) only otherwise. -/
def attemptCreateAndSave (law : InputLaw) (scrapingData : ScrapingData)
    (now : List Char) : Option ScrapedLaw :=
  let scrapedLaw := createScrapedLaw law scrapingData now
  if scrapedLaw.isComplete then some scrapedLaw else none

/--
Pattern items for the regexes used by the scraper and validator.  Every regex
in the source is a sequence of case-folded literals, character classes with a
star / plus / bounded repetition, and the end-of-input anchor; alternations
are expanded into several item lists by the callers.  Matching is by
backtracking, i.e. it decides existence of a decomposition, which is exactly
the meaning of a JS `test` / `match` at a fixed starting position.
-/
inductive PatItem where
  | one (p : Char → Bool)
  | star (p : Char → Bool)
  | plus (p : Char → Bool)
  | bounded (p : Char → Bool) (maxReps : Nat)
  | lineEnd

/--
Single-step backtracking matcher.  Each recursive call strictly decreases the
measure two-times-remaining-characters plus remaining-items: a star, plus or
bounded item re-enters with one fewer character, and dropping an item re-enters
with one fewer item, so the explicit fuel passed by `matchItems` below is
always sufficient and the out-of-fuel branch is unreachable.
-/
def matchRun : Nat → List PatItem → List Char → Bool
  | 0, _, _ => false
  | _ + 1, [], _ => true
  | f + 1, .one p :: ps, cs =>
    match cs with
    | [] => false
    | c :: cs' => p c && matchRun f ps cs'
  | f + 1, .star p :: ps, cs =>
    matchRun f ps cs ||
      (match cs with
       | [] => false
       | c :: cs' => p c && matchRun f (.star p :: ps) cs')
  | f + 1, .plus p :: ps, cs =>
    match cs with
    | [] => false
    | c :: cs' => p c && matchRun f (.star p :: ps) cs'
  | f + 1, .bounded p k :: ps, cs =>
    matchRun f ps cs ||
      (match k, cs with
       | 0, _ => false
       | _, [] => false
       | k' + 1, c :: cs' => p c && matchRun f (.bounded p k' :: ps) cs')
  | f + 1, .lineEnd :: ps, cs => cs.isEmpty && matchRun f ps cs

/-- Does the item sequence match some prefix of `cs`?  This is a JS regex
match attempt at a fixed starting position. -/
def matchItems (ps : List PatItem) (cs : List Char) : Bool :=
  matchRun (2 * cs.length + ps.length + 1) ps cs

/-- Case-insensitive literal character item (the JS regex flag for ignoring
case folds both the pattern and the input). -/
def litp (c : Char) : PatItem := .one (fun x => foldChar x == foldChar c)

/-- Case-insensitive literal word: one item per character of `s`. -/
def lits (s : String) : List PatItem := s.data.map litp

/-- Case-sensitive literal character item (for the patterns without the
ignore-case flag). -/
def litcs (c : Char) : PatItem := .one (fun x => x == c)

/-- Unanchored test: does the pattern match starting at any position?
This is the semantics of JS `test` for a pattern without anchors. -/
def regexTest (ps : List PatItem) (s : List Char) : Bool :=
  (List.range (s.length + 1)).any (fun i => matchItems ps (s.drop i))

/-- Anchored test: the pattern begins with the start-of-input anchor (no
multiline flag), so only position 0 can match. -/
def regexTestAnchored (ps : List PatItem) (s : List Char) : Bool :=
  matchItems ps s

/-- The character class of the regex dot: any character except a line
terminator. -/
def notNL (c : Char) : Bool :=
  !(c == '\n' || c == '\r' || c.toNat == 0x2028 || c.toNat == 0x2029)

/--
The three law-start patterns of `processLawText` (`law-scraper.js` lines
499-503) each begin with a group matching either the start of input or a
newline, then optional whitespace, a keyword, mandatory whitespace and a
continuation.  `tails` lists the item sequences after that leading group
(one per alternation branch).  A match at position 0 first tries the
start-of-input branch and falls back to consuming a leading newline; a match
at a later position `i` requires the character at `i` to be the newline the
group consumes.
-/
def anchoredStartMatchAt (tails : List (List PatItem)) (t : List Char)
    (i : Nat) : Bool :=
  if i = 0 then
    tails.any (fun ps => matchItems ps t)
      || (t.headD ' ' == '\n' && tails.any (fun ps => matchItems ps t.tail))
  else
    t.getD i ' ' == '\n' && tails.any (fun ps => matchItems ps (t.drop (i + 1)))

/-- Leftmost match index of a law-start pattern (the JS `match` index). -/
def firstStartIndex (tails : List (List PatItem)) (t : List Char) :
    Option Nat :=
  (List.range t.length).find? (fun i => anchoredStartMatchAt tails t i)

/-- Item sequences after the leading group of the first start pattern, a
decree marker followed by a number (two alternation branches). -/
def lawStartTail1A : List PatItem :=
  [.star isWs] ++ lits "закон" ++ [.plus isWs] ++ lits "за"

/-- Second branch of the first start pattern (the numero sign). -/
def lawStartTail1B : List PatItem :=
  [.star isWs] ++ lits "закон" ++ [.plus isWs] ++ lits "№"

/-- Tail of the second start pattern (ukaz followed by a numero sign). -/
def lawStartTail2 : List PatItem :=
  [.star isWs] ++ lits "указ" ++ [.plus isWs] ++ lits "№"

/-- Tail of the third start pattern; case-insensitively identical to the
first branch of the first pattern. -/
def lawStartTail3 : List PatItem :=
  [.star isWs] ++ lits "закон" ++ [.plus isWs] ++ lits "за"

/-- Start offset chosen by `processLawText`: first match of the first
pattern with a match, in pattern order, else 0. -/
def processLawTextStartIndex (t : List Char) : Nat :=
  match firstStartIndex [lawStartTail1A, lawStartTail1B] t with
  | some i => i
  | none =>
    match firstStartIndex [lawStartTail2] t with
    | some i => i
    | none =>
      match firstStartIndex [lawStartTail3] t with
      | some i => i
      | none => 0

/-- Signature-block end pattern (`law-scraper.js` lines 515-519): a marker
word, then at most `window` arbitrary characters, then the end-of-input
anchor. -/
def endPatternItems (marker : String) (window : Nat) : List PatItem :=
  lits marker ++ [.bounded (fun _ => true) window, .lineEnd]

/-- Leftmost match index of an end pattern. -/
def firstEndMatchIndex (marker : String) (window : Nat) (t : List Char) :
    Option Nat :=
  (List.range (t.length + 1)).find?
    (fun i => matchItems (endPatternItems marker window) (t.drop i))

/-- End offset chosen by `processLawText`: the matched pattern's index plus
its match length.  Because every end pattern is anchored at the end of the
input, a match starting at `i` spans the remaining `t.length - i`
characters. -/
def processLawTextEndIndex (t : List Char) : Nat :=
  match firstEndMatchIndex "председател" 200 t with
  | some i => i + (t.length - i)
  | none =>
    match firstEndMatchIndex "министър-председател" 200 t with
    | some i => i + (t.length - i)
    | none =>
      match firstEndMatchIndex "издаден" 100 t with
      | some i => i + (t.length - i)
      | none => t.length

/-- Model of `law-scraper.js` / `processLawText`: guard for empty input,
boundary detection, then `slice(startIndex, endIndex)` and a trim.  The JS
slice is take-then-drop. -/
def processLawText (t : List Char) : List Char :=
  if t.isEmpty then []
  else
    trimList ((t.take (processLawTextEndIndex t)).drop (processLawTextStartIndex t))

/-- Model of the tail of `extractLawContent` (`law-scraper.js` lines
449-466): if any text was extracted it is boundary-processed, then truncated
with a marker when it exceeds the configured maximum, and the returned
`fullText` is trimmed. -/
def extractLawContentFullText (maxTextLength : Nat) (raw : List Char) :
    List Char :=
  if raw.isEmpty then trimList raw
  else
    let processed := processLawText raw
    let enforced :=
      if maxTextLength < processed.length then
        processed.take maxTextLength ++ ("\n[TRUNCATED]".data)
      else processed
    trimList enforced

/-- Number of positions of `t` at which some law-start pattern matches; the
specification's premise of exactly one opening marker is this count being
one. -/
def countStartMatches (t : List Char) : Nat :=
  (List.range t.length).countP (fun i =>
    anchoredStartMatchAt [lawStartTail1A, lawStartTail1B] t i
      || anchoredStartMatchAt [lawStartTail2] t i
      || anchoredStartMatchAt [lawStartTail3] t i)

/-- Number of positions of `t` at which a signature-block marker word occurs
(case-insensitively); the specification's premise of exactly one
signature-block marker is this count being one. -/
def countSigMarkers (t : List Char) : Nat :=
  (List.range (t.length + 1)).countP (fun i =>
    (("председател".data.map foldChar).isPrefixOf ((t.drop i).map foldChar))
      || (("министър-председател".data.map foldChar).isPrefixOf
            ((t.drop i).map foldChar))
      || (("издаден".data.map foldChar).isPrefixOf ((t.drop i).map foldChar)))

/-- Severity scale of the validator (five ordered levels). -/
inductive Severity where
  | none
  | low
  | medium
  | high
  | critical
deriving DecidableEq, Repr

/-- Numeric rank of a severity level, ordering none, low, medium, high,
critical from weakest to strongest. -/
def Severity.rank : Severity → Nat
  | .none => 0
  | .low => 1
  | .medium => 2
  | .high => 3
  | .critical => 4

/-- Maximum of a list of severities under the rank order. -/
def maxSeverity (l : List Severity) : Severity :=
  l.foldl (fun a b => if a.rank < b.rank then b else a) .none

/-- Validation outcome (`TextValidator.validateLawText` result object). -/
structure ValidationResult where
  isValid : Bool
  issues : List String
  severity : Severity
  recommendations : List String
deriving DecidableEq, Repr

/-- The record fields destructured by `validateLawText`; only `fullText` is
inspected by the function body. -/
structure LawData where
  fullText : Option (List Char) := none
  lawId : Option (List Char) := none
  title : Option (List Char) := none
deriving DecidableEq, Repr

/-- Valid-ending pattern table of the validator (13 patterns, all with the
ignore-case flag; the first two end with the class of the regex dot repeated
then the end anchor). -/
def validEndingMatchers : List (List PatItem) :=
  [ lits "чл." ++ [.star isWs, .plus isDigit, .star notNL, .lineEnd]
  , lits "параграф" ++ [.star isWs, .plus isDigit, .star notNL, .lineEnd]
  , lits "влиза в сила"
  , lits "отменя се"
  , lits "допълва се"
  , lits "изменя се"
  , lits "настоящия закон"
  , lits "публикува" ++ [.star notNL] ++ lits "държавен вестник"
  , lits "отменят се"
  , lits "в сила от"
  , lits "заличава се"
  , lits "добавя се"
  , lits "запазва се" ]

/-- Character class of digits, whitespace, dot, comma and hyphen used by the
table-ending patterns. -/
def tableCls (c : Char) : Bool :=
  isWs c || isDigit c || c == '.' || c == ',' || c == '-'

/-- Character class of digits and whitespace. -/
def digitWsCls (c : Char) : Bool := isDigit c || isWs c

/-- Lowercase Cyrillic range or whitespace, under case folding (the third
invalid-ending pattern carries the ignore-case flag). -/
def cyrWsCls (c : Char) : Bool :=
  (decide (0x430 ≤ (foldChar c).toNat ∧ (foldChar c).toNat ≤ 0x44f)) || isWs c

/-- Invalid-ending pattern table of the validator (11 patterns, each anchored
at the start of the input; patterns nine to eleven are case-sensitive). -/
def invalidEndingMatchers : List (List PatItem) :=
  [ [.star isWs, .plus isDigit, .plus tableCls, .lineEnd]
  , [.star isWs, .star tableCls, .plus isDigit, .star isWs, .lineEnd]
  , [.star isWs, .plus isDigit, .star isWs, .star cyrWsCls, .plus isDigit,
     .star isWs, .lineEnd]
  , [.star isWs] ++ lits "op-" ++ [.plus isDigit]
  , [.star isWs] ++ lits "смр"
  , [.star isWs] ++ lits "инженеринг"
  , [.star isWs] ++ lits "община" ++ [.plus isWs]
  , [.star isWs] ++ lits "област" ++ [.plus isWs]
  , [.star isWs, litcs 'к', litcs 'м', .star isWs, .lineEnd]
  , [.star isWs, .plus digitWsCls, litcs 'м', .star isWs, .lineEnd]
  , [.star isWs, .plus digitWsCls, litcs 'л', litcs 'в', .star isWs,
     .lineEnd] ]

/-- Truncation-indicator pattern table of the validator (five patterns; the
ellipsis is case-sensitive, the rest carry the ignore-case flag; the fourth
has an optional dot then optional whitespace anchored at the end). -/
def truncationIndicators : List (List PatItem) :=
  [ lits "[truncated]"
  , lits "text truncated from"
  , [litcs '.', litcs '.', litcs '.']
  , lits "и т.н" ++ [.bounded (fun c => c == '.') 1, .star isWs, .lineEnd]
  , lits "продължава" ]

/-- Split a character list at every newline (JS split on the one-character
separator; an empty input yields one empty piece). -/
def splitOnNL : List Char → List (List Char)
  | [] => [[]]
  | '\n' :: rest => [] :: splitOnNL rest
  | c :: rest =>
    match splitOnNL rest with
    | [] => [[c]]
    | h :: t => (c :: h) :: t

/-- Split a character list at every non-overlapping two-newline separator
(JS split on a two-character string, scanning left to right). -/
def splitOnNN : List Char → List (List Char)
  | '\n' :: '\n' :: rest => [] :: splitOnNN rest
  | [] => [[]]
  | c :: rest =>
    match splitOnNN rest with
    | [] => [[c]]
    | h :: t => (c :: h) :: t

/-- Join pieces with a newline (JS array join with the newline separator). -/
def joinNL : List (List Char) → List Char
  | [] => []
  | [l] => l
  | l :: ls => l ++ '\n' :: joinNL ls

/-- Count of maximal runs of non-whitespace characters. -/
def countNonWsRuns (inRun : Bool) : List Char → Nat
  | [] => 0
  | c :: cs =>
    if isWs c then countNonWsRuns false cs
    else (if inRun then 0 else 1) + countNonWsRuns true cs

/-- Length of the array produced by a JS split on a whitespace-run regex: one
element per non-whitespace run, plus a leading empty element when the input
starts with whitespace, plus a trailing empty element when it ends with
whitespace; the empty input yields a one-element array. -/
def jsSplitWsLength (l : List Char) : Nat :=
  if l.isEmpty then 1
  else
    countNonWsRuns false l
      + (if isWs (l.headD ' ') then 1 else 0)
      + (if isWs (l.getLastD ' ') then 1 else 0)

/-- Keyword list of the validator's law-content check. -/
def lawKeywords : List String :=
  ["закон", "член", "параграф", "алинея", "точка", "изменя", "допълва"]

/-- Initial result object of the validator (source lines 50-55). -/
def baseResult : ValidationResult :=
  { isValid := true, issues := [], severity := .none, recommendations := [] }

/-- Length check of the validator (source lines 69-79): below one hundred
characters the record is extremely short and critical, below five hundred it
is very short and at least high. -/
def lengthCheck (fullText : List Char) (r : ValidationResult) :
    ValidationResult :=
  if fullText.length < 100 then
    { r with
      isValid := false
      issues := r.issues ++ ["extremely_short"]
      severity := .critical
      recommendations :=
        r.recommendations ++ ["Text too short - likely scraping error"] }
  else if fullText.length < 500 then
    { r with
      isValid := false
      issues := r.issues ++ ["very_short"]
      severity := .high
      recommendations :=
        r.recommendations ++ ["Text very short - verify content quality"] }
  else r

/-- Invalid-ending check (source lines 102-109); the severity update is the
source's ternary, which keeps critical and otherwise overwrites with high. -/
def invalidEndingCheck (hasInvalidEnding : Bool) (r : ValidationResult) :
    ValidationResult :=
  if hasInvalidEnding then
    { r with
      isValid := false
      issues := r.issues ++ ["ends_with_table_data"]
      severity := if r.severity == .critical then .critical else .high
      recommendations := r.recommendations
        ++ ["Text ends with table/numeric data instead of law content"] }
  else r

/-- Suspicious-ending check (source lines 111-120): fires when neither
ending table matched and the ending has fewer than five words; keeps
critical and otherwise overwrites with medium. -/
def suspiciousEndingCheck (hasValidEnding hasInvalidEnding : Bool)
    (wordCount : Nat) (r : ValidationResult) : ValidationResult :=
  if !hasValidEnding && !hasInvalidEnding && decide (wordCount < 5) then
    { r with
      isValid := false
      issues := r.issues ++ ["suspicious_ending"]
      severity := if r.severity == .critical then .critical else .medium
      recommendations :=
        r.recommendations ++ ["Ending seems incomplete or unusual"] }
  else r

/-- Truncation check (source lines 123-131); keeps critical and otherwise
overwrites with high. -/
def truncationCheck (hasTruncation : Bool) (r : ValidationResult) :
    ValidationResult :=
  if hasTruncation then
    { r with
      isValid := false
      issues := r.issues ++ ["truncated"]
      severity := if r.severity == .critical then .critical else .high
      recommendations := r.recommendations ++ ["Text appears to be truncated"] }
  else r

/-- Encoding check (source lines 134-139); keeps critical and otherwise
overwrites with medium. -/
def encodingCheck (hasReplacementChar : Bool) (r : ValidationResult) :
    ValidationResult :=
  if hasReplacementChar then
    { r with
      isValid := false
      issues := r.issues ++ ["encoding_issues"]
      severity := if r.severity == .critical then .critical else .medium
      recommendations := r.recommendations ++ ["Text has encoding issues"] }
  else r

/-- Paragraph-structure check (source lines 142-147): advisory only; it does
not clear validity and only raises a none severity to low. -/
def structureCheck (paragraphCount : Nat) (r : ValidationResult) :
    ValidationResult :=
  if paragraphCount < 3 then
    { r with
      issues := r.issues ++ ["poor_structure"]
      severity := if r.severity == .none then .low else r.severity
      recommendations :=
        r.recommendations ++ ["Text has poor paragraph structure"] }
  else r

/-- Law-keyword check (source lines 150-170); keeps critical and otherwise
overwrites with high. -/
def keywordCheck (hasLawKeywords : Bool) (r : ValidationResult) :
    ValidationResult :=
  if !hasLawKeywords then
    { r with
      isValid := false
      issues := r.issues ++ ["no_law_content"]
      severity := if r.severity == .critical then .critical else .high
      recommendations :=
        r.recommendations ++ ["Text does not contain typical law terminology"] }
  else r

/--
Model of `TextValidator.validateLawText` (src/unnamed/part_017 lines 49-173).
The checks run in source order: missing or empty text returns early; then the
length check, the ending analysis over the trimmed last five hundred
characters and last ten lines, and the truncation, encoding,
paragraph-structure and law-keyword checks, each applied to the running
result exactly as in the source.
-/
def validateLawText (lawData : LawData) : ValidationResult :=
  match lawData.fullText with
  | none =>
    { isValid := false, issues := ["no_full_text"], severity := .critical
      recommendations := ["Complete re-scrape required"] }
  | some fullText =>
    if fullText.isEmpty then
      { isValid := false, issues := ["no_full_text"], severity := .critical
        recommendations := ["Complete re-scrape required"] }
    else
      let endingText := trimList (fullText.drop (fullText.length - 500))
      let endingLines := splitOnNL endingText
      let lastLines :=
        trimList (joinNL (endingLines.drop (endingLines.length - 10)))
      let hasValidEnding :=
        validEndingMatchers.any (fun ps => regexTest ps lastLines)
      let hasInvalidEnding :=
        invalidEndingMatchers.any (fun ps => regexTestAnchored ps lastLines)
      let hasTruncation :=
        truncationIndicators.any (fun ps => regexTest ps fullText)
      let hasReplacementChar := fullText.any (fun c => c.toNat == 0xfffd)
      let paragraphs :=
        (splitOnNN fullText).filter (fun p => decide (0 < (trimList p).length))
      let hasLawKeywords :=
        lawKeywords.any (fun kw => containsSeq kw.data (fullText.map foldChar))
      keywordCheck hasLawKeywords
        (structureCheck paragraphs.length
          (encodingCheck hasReplacementChar
            (truncationCheck hasTruncation
              (suspiciousEndingCheck hasValidEnding hasInvalidEnding
                (jsSplitWsLength lastLines)
                (invalidEndingCheck hasInvalidEnding
                  (lengthCheck fullText baseResult))))))

/--
Modelled from the spec (section on the validator's taxonomy): the severity
attributed to each issue tag by the specification, used to state the
monotonic-maximum property the specification claims; the code itself stores
no per-issue severity.
-/
def specIssueSeverity : String → Severity
  | "no_full_text" => .critical
  | "extremely_short" => .critical
  | "very_short" => .high
  | "ends_with_table_data" => .high
  | "suspicious_ending" => .medium
  | "truncated" => .high
  | "encoding_issues" => .medium
  | "poor_structure" => .low
  | "no_law_content" => .high
  | _ => .none

/-- Options of `BatchProcessor` that the partitioning strategies read.  The
constructor defaults mirror the constructor's JS logical-or defaults; a
`totalWorkers` of zero stands for the unset option (falsy in JS), replaced by
ten at its use site. -/
structure BatchOptions where
  batchSize : Nat := 100
  sortOrderDesc : Bool := true
  totalWorkers : Nat := 0
deriving DecidableEq, Repr

/-- One batch produced by `BatchProcessor` (optional year and sub-batch
number only for the year strategy). -/
structure Batch where
  batchIndex : Nat
  laws : List InputLaw
  size : Nat
  startIndex : Nat
  endIndex : Nat
  year : Option Nat := none
  subBatch : Option Nat := none
deriving DecidableEq, Repr

/-- Partitioning strategies dispatched by `createBatchesByStrategy`; any
other strategy string falls through to the size strategy in the source. -/
inductive BatchStrategy where
  | size
  | year
  | equal
deriving DecidableEq, Repr

/-- Days from the civil epoch for a proleptic-Gregorian date, the standard
civil-calendar conversion used to model `Date.UTC` on a four-digit year,
month and day.  For out-of-range months or days the JS date would be invalid
(a not-a-number timestamp, under which the JS sort order is unspecified);
the model stays total, which is harmless for the permutation claims. -/
def daysFromCivil (y m d : Int) : Int :=
  let y' := if m ≤ 2 then y - 1 else y
  let era := (if 0 ≤ y' then y' else y' - 399) / 400
  let yoe := y' - era * 400
  let mp := (m + 9) % 12
  let doy := (153 * mp + 2) / 5 + d - 1
  let doe := yoe * 365 + yoe / 4 - yoe / 100 + doy
  era * 146097 + doe - 719468

/-- Leftmost match of the title date pattern: one or two digits, a slash, one
or two digits, a slash, four digits, with the greedy two-digit alternative
tried first at each position (JS backtracking). -/
def findTitleDate (t : List Char) : Option (Nat × Nat × Nat) :=
  let digitsAt := fun (i n : Nat) => ((t.drop i).take n).length = n
      && ((t.drop i).take n).all isDigit
  let slashAt := fun (i : Nat) => t.getD i ' ' == '/'
  let tryAt := fun (i : Nat) =>
    (List.range 2).findSome? (fun dd =>
      let dLen := 2 - dd
      if digitsAt i dLen && slashAt (i + dLen) then
        (List.range 2).findSome? (fun mm =>
          let mLen := 2 - mm
          if digitsAt (i + dLen + 1) mLen && slashAt (i + dLen + 1 + mLen)
              && digitsAt (i + dLen + 1 + mLen + 1) 4 then
            some (parseDigits ((t.drop i).take dLen),
                  parseDigits ((t.drop (i + dLen + 1)).take mLen),
                  parseDigits ((t.drop (i + dLen + 1 + mLen + 1)).take 4))
          else none)
      else none)
  (List.range (t.length + 1)).findSome? tryAt

/-- Model of `BatchProcessor.extractDateFromLaw`: a date parsed from the
title becomes a millisecond timestamp; otherwise the numeric law id from the
link; otherwise zero. -/
def extractDateFromLaw (law : InputLaw) : Int :=
  match findTitleDate law.title with
  | some (d, m, y) => daysFromCivil (Int.ofNat y) (Int.ofNat m) (Int.ofNat d) * 86400000
  | none =>
    match extractLawId law.link with
    | some ds => Int.ofNat (parseDigits ds)
    | none => 0

/-- Model of `BatchProcessor.sortLawsChronologically`: a comparator sort on
the date key, descending (newest first) or ascending; the JS sort is stable
and, for a consistent numeric comparator, agrees with a stable merge sort. -/
def sortLawsChronologically (o : BatchOptions) (laws : List InputLaw) :
    List InputLaw :=
  laws.mergeSort (fun a b =>
    if o.sortOrderDesc then decide (extractDateFromLaw b ≤ extractDateFromLaw a)
    else decide (extractDateFromLaw a ≤ extractDateFromLaw b))

/-- Loop of `BatchProcessor.createBatchesBySize`: from index `i`, slice
`batchSize` laws, push a batch whose index is the number already pushed, and
advance by `batchSize`.  The loop advances by at least one index per
iteration when the batch size is positive, so the fuel passed by the wrapper
is sufficient and the out-of-fuel branch is unreachable; a zero batch size
marks a loop the source would never leave (its constructor default makes the
option positive). -/
def createBatchesBySizeAux (batchSize : Nat) (laws : List InputLaw) :
    Nat → Nat → List Batch → List Batch
  | 0, _, acc => acc
  | fuel + 1, i, acc =>
    if 0 < batchSize ∧ i < laws.length then
      let batchLaws := (laws.drop i).take batchSize
      createBatchesBySizeAux batchSize laws fuel (i + batchSize)
        (acc ++ [{ batchIndex := acc.length, laws := batchLaws
                   size := batchLaws.length, startIndex := i
                   endIndex := min (i + batchSize) laws.length }])
    else acc

/-- Model of `BatchProcessor.createBatchesBySize`. -/
def createBatchesBySize (o : BatchOptions) (laws : List InputLaw) :
    List Batch :=
  createBatchesBySizeAux o.batchSize laws (laws.length + 1) 0 []

/-- Model of `BatchProcessor.createEqualSizeBatches`.  The source computes a
batch size targeting the worker count and passes it as a second argument,
but `createBatchesBySize` declares a single parameter, so the computed value
is discarded and the configured option is used instead. -/
def createEqualSizeBatches (o : BatchOptions) (laws : List InputLaw) :
    List Batch :=
  let totalWorkers := if o.totalWorkers = 0 then 10 else o.totalWorkers
  let _batchSize := (laws.length + totalWorkers - 1) / totalWorkers
  createBatchesBySize o laws

/-- Model of `BatchProcessor.extractYearFromLaw`: the first four-digit run of
the title when it lies in the plausible range, else an estimate from the
numeric law id, else the current-year default. -/
def extractYearFromLaw (law : InputLaw) : Nat :=
  let fallback :=
    match extractLawId law.link with
    | some ds =>
      let id := parseDigits ds
      if 166000 ≤ id then 2025
      else if 165000 ≤ id then 2024
      else if 164000 ≤ id then 2023
      else if 163000 ≤ id then 2022
      else if 162000 ≤ id then 2021
      else if 161000 ≤ id then 2020
      else if 160000 ≤ id then 2019
      else if 159000 ≤ id then 2018
      else if 158000 ≤ id then 2017
      else 2016
    | none => 2025
  match (List.range (law.title.length + 1)).find? (fun i =>
      ((law.title.drop i).take 4).length = 4
        && ((law.title.drop i).take 4).all isDigit) with
  | some i =>
    let year := parseDigits ((law.title.drop i).take 4)
    if 2016 ≤ year ∧ year ≤ 2030 then year else fallback
  | none => fallback

/-- Fixed-size chunks of a list of indexed laws (the sub-batch slicing loop
for oversized year groups).  Each step drops at least one element when the
size is positive, so the fuel passed by the wrapper is sufficient; a zero
size again marks a loop the source never leaves with a zero option. -/
def chunksOfPairsAux (n : Nat) : Nat → List (Nat × InputLaw) →
    List (List (Nat × InputLaw))
  | 0, _ => []
  | fuel + 1, l =>
    if l = [] ∨ n = 0 then []
    else l.take n :: chunksOfPairsAux n fuel (l.drop n)

/-- Fixed-size chunks of a list of indexed laws. -/
def chunksOfPairs (n : Nat) (l : List (Nat × InputLaw)) :
    List (List (Nat × InputLaw)) :=
  chunksOfPairsAux n (l.length + 1) l

/-- Dummy indexed law for the head and last accesses the source performs on
year groups; the groups are nonempty by construction, so it is never read. -/
def dummyPair : Nat × InputLaw := (0, { title := [], date := [], link := [] })

/-- Year group of the index-paired laws: the map built by
`createBatchesByYear` stores, per extracted year, the laws of that year in
original order together with their original indices. -/
def yearGroup (laws : List InputLaw) (y : Nat) : List (Nat × InputLaw) :=
  laws.enum.filter (fun p => extractYearFromLaw p.2 == y)

/-- Batches emitted for one year group by `createBatchesByYear`: one batch,
or consecutive size-bounded sub-batches when the group exceeds the batch
size.  Batch indices are assigned afterwards (the source assigns the running
length at push time, which equals the final position). -/
def yearBatchesFor (o : BatchOptions) (laws : List InputLaw) (y : Nat) :
    List Batch :=
  let yearLaws := yearGroup laws y
  if o.batchSize < yearLaws.length then
    (chunksOfPairs o.batchSize yearLaws).enum.map (fun c =>
      { batchIndex := 0
        laws := c.2.map (fun p => p.2)
        size := c.2.length
        startIndex := (c.2.headD dummyPair).1
        endIndex := (c.2.getLastD dummyPair).1 + 1
        year := some y
        subBatch := some (c.1 + 1) })
  else
    [{ batchIndex := 0
       laws := yearLaws.map (fun p => p.2)
       size := yearLaws.length
       startIndex := (yearLaws.headD dummyPair).1
       endIndex := (yearLaws.getLastD dummyPair).1 + 1
       year := some y
       subBatch := none }]

/-- Model of `BatchProcessor.createBatchesByYear`: group by extracted year
preserving in-group order, sort the distinct years numerically in the
configured direction, emit each group's batch or sub-batches, and number the
batches by their position in the emitted sequence. -/
def createBatchesByYear (o : BatchOptions) (laws : List InputLaw) :
    List Batch :=
  let years := (laws.enum.map (fun p => extractYearFromLaw p.2)).dedup
  let sortedYears := years.mergeSort (fun a b =>
    if o.sortOrderDesc then decide (b ≤ a) else decide (a ≤ b))
  ((sortedYears.map (yearBatchesFor o laws)).flatten).enum.map
    (fun b => { b.2 with batchIndex := b.1 })

/-- Model of `BatchProcessor.createBatchesByStrategy`. -/
def createBatchesByStrategy (o : BatchOptions) (strategy : BatchStrategy)
    (laws : List InputLaw) : List Batch :=
  match strategy with
  | .year => createBatchesByYear o laws
  | .equal => createEqualSizeBatches o laws
  | .size => createBatchesBySize o laws

/-- Fields of a persisted record that `ResultAggregator.aggregate` reads:
the completeness flag, the text length, and the scrape timestamp (as a
millisecond number, the value JS obtains from the stored ISO string). -/
structure AggRecord where
  isComplete : Bool
  textLength : Nat
  scrapedAt : Int
deriving DecidableEq, Repr

/-- Failure-log entry (`schemas.js` FailedLaw). -/
structure FailureRecord where
  lawId : Option (List Char) := none
  link : List Char := []
  title : List Char := []
  error : List Char := []
  retryCount : Nat := 0
  failedAt : List Char := []
  batchId : List Char := []
deriving DecidableEq, Repr

/-- Statistics accumulator of the aggregator; the minimum starts at the JS
infinity sentinel, modelled by `none`. -/
structure AggStats where
  total : Nat := 0
  successful : Nat := 0
  withErrors : Nat := 0
  totalTextLength : Nat := 0
  minTextLength : Option Nat := none
  maxTextLength : Nat := 0
  averageTextLength : Nat := 0
deriving DecidableEq, Repr

/-- Rounding of an exact ratio to the nearest integer, modelling the JS
round of the average (half rounds up). -/
def jsRound (a b : Nat) : Nat := (2 * a + b) / (2 * b)

/-- Per-file step of the aggregator loop (`result-aggregator.js` lines
45-66).  A file that fails to parse (`none`) only counts an error; a parsed
record is appended and counted, then classified as successful or
erroneous. -/
def aggStep (acc : List AggRecord × AggStats) (f : Option AggRecord) :
    List AggRecord × AggStats :=
  match f with
  | none => (acc.1, { acc.2 with withErrors := acc.2.withErrors + 1 })
  | some law =>
    let st := { acc.2 with total := acc.2.total + 1 }
    if law.isComplete && decide (50 < law.textLength) then
      (acc.1 ++ [law],
        { st with
          successful := st.successful + 1
          totalTextLength := st.totalTextLength + law.textLength
          minTextLength :=
            some (min (st.minTextLength.getD law.textLength) law.textLength)
          maxTextLength := max st.maxTextLength law.textLength })
    else
      (acc.1 ++ [law], { st with withErrors := st.withErrors + 1 })

/-- Metadata and payload of the aggregated result document. -/
structure AggResult where
  totalScrapedLaws : Nat
  successfulLaws : Nat
  errorLaws : Nat
  failedCount : Nat
  statistics : AggStats
  scrapedLaws : List AggRecord
  failedLaws : List FailureRecord
deriving DecidableEq, Repr

/-- Model of `ResultAggregator.aggregate` over the parse outcomes of the
record files in directory order, plus the separately loaded failure log:
the per-file loop, the average and minimum fixups, the sort of the
consolidated list by scrape timestamp descending (stable, comparator on the
timestamp difference), and the result document. -/
def aggregate (files : List (Option AggRecord))
    (failedLaws : List FailureRecord) : AggResult :=
  let acc := files.foldl aggStep ([], {})
  let stats0 := acc.2
  let stats :=
    if 0 < stats0.successful then
      { stats0 with
        averageTextLength := jsRound stats0.totalTextLength stats0.successful
        minTextLength := some (stats0.minTextLength.getD 0) }
    else { stats0 with minTextLength := some 0 }
  let sorted := acc.1.mergeSort (fun a b => decide (b.scrapedAt ≤ a.scrapedAt))
  { totalScrapedLaws := stats.total
    successfulLaws := stats.successful
    errorLaws := stats.withErrors
    failedCount := failedLaws.length
    statistics := stats
    scrapedLaws := sorted
    failedLaws := failedLaws }

/-- Exponential backoff delay of the retry loop (`law-scraper.js` line 261):
one second doubled per completed attempt, capped at ten seconds. -/
def backoffDelay (attempt : Nat) : Nat :=
  min (1000 * 2 ^ (attempt - 1)) 10000

/-- Observable events of the per-item retry loop. -/
inductive RetryEvent where
  | attempt (n : Nat) (success : Bool)
  | sleep (ms : Nat)
deriving DecidableEq, Repr

/-- Trace of the retry loop of `scrapeSingleLaw` from attempt `a` on
(`law-scraper.js` lines 178-281): each attempt either succeeds and the loop
returns, or fails; after a failed attempt that is not the last, the loop
sleeps for the backoff delay and retries.  `outcome` abstracts whether a
given attempt extracts valid content without any step throwing. -/
def retryLoopFrom (outcome : Nat → Bool) (maxRetries : Nat) (a : Nat) :
    List RetryEvent :=
  if h : maxRetries < a then []
  else if outcome a then [.attempt a true]
  else if a < maxRetries then
    .attempt a false :: .sleep (backoffDelay a)
      :: retryLoopFrom outcome maxRetries (a + 1)
  else [.attempt a false]
termination_by maxRetries + 1 - a

/-- Full trace of the retry loop, attempts starting at one. -/
def retryTrace (outcome : Nat → Bool) (maxRetries : Nat) : List RetryEvent :=
  retryLoopFrom outcome maxRetries 1

/-- Running counters of the scheduler (`this.stats` of the scraper). -/
structure SchedStats where
  processed : Nat := 0
  successful : Nat := 0
  failed : Nat := 0
  skipped : Nat := 0
deriving DecidableEq, Repr

/-- State threaded through the scheduler: the set of law ids with an
existing output file (the authoritative persisted work), and the running
counters. -/
structure SchedState where
  files : List (Option (List Char))
  stats : SchedStats
deriving DecidableEq, Repr

/-- Model of one `scrapeSingleLaw` call at the scheduler level
(`law-scraper.js` lines 161-300): if the output file keyed by the item's law
id already exists the item is skipped without any scraping (the attempt
outcome is not consulted); otherwise the whole retry loop either eventually
succeeds, persisting the record file and counting a success, or exhausts,
counting a failure.  `att` abstracts the deterministic net outcome of the
retry loop for an item. -/
def processItem (att : InputLaw → Bool) (st : SchedState) (law : InputLaw) :
    SchedState :=
  let lawId := extractLawId law.link
  if st.files.contains lawId then
    { st with stats := { st.stats with skipped := st.stats.skipped + 1 } }
  else if att law then
    { files := lawId :: st.files
      stats := { st.stats with
        successful := st.stats.successful + 1
        processed := st.stats.processed + 1 } }
  else
    { st with stats := { st.stats with
        failed := st.stats.failed + 1
        processed := st.stats.processed + 1 } }

/-- One scheduler run over a worklist, starting from the persisted files
`files0` and fresh counters.  Workers pull items from a shared cursor, so
each item is processed exactly once; the model serializes them in worklist
order, which fixes one interleaving of the shared-state updates. -/
def runScheduler (att : InputLaw → Bool) (files0 : List (Option (List Char)))
    (laws : List InputLaw) : SchedState :=
  laws.foldl (processItem att) { files := files0, stats := {} }

/-- Concrete record with a low-level and a high-level issue whose final
reported severity is nevertheless medium: one hundred and four characters,
valid ending, a replacement character, a single paragraph. -/
def sampleMixedText : List Char :=
  (String.join (List.replicate 15 "закон ")).data
    ++ [Char.ofNat 0xfffd, ' '] ++ ("влиза в сила".data)

/-- Concrete extracted text with one opening marker, one signature marker
and trailing content after the signature block. -/
def sampleSignedText : List Char :=
  ("меню\nЗАКОН ЗА спорта\nЧл. 1. текст\nПредседател на НС Иван\nfooter след подписа").data

/-- Sixteen-character plain text for the truncation scenario. -/
def samplePlainText : List Char := ("abcdefghijklmnop".data)

/-- Small text with a unique opening-marker match at position two. -/
def sampleOpeningText : List Char := ("ab\nЗАКОН ЗА х".data)

/-- Worklist of five distinct laws for the equal-strategy scenario. -/
def sampleFiveLaws : List InputLaw :=
  [ { title := ("a 01/01/2020".data), date := [], link := ("p/ID/162001".data) }
  , { title := ("b 02/01/2020".data), date := [], link := ("p/ID/162002".data) }
  , { title := ("c 03/01/2020".data), date := [], link := ("p/ID/162003".data) }
  , { title := ("d 04/01/2020".data), date := [], link := ("p/ID/162004".data) }
  , { title := ("e 05/01/2020".data), date := [], link := ("p/ID/162005".data) } ]

/-- Options with the constructor defaults and ten workers, the configuration
of the equal-strategy scenario. -/
def sampleEqualOptions : BatchOptions :=
  { batchSize := 100, sortOrderDesc := true, totalWorkers := 10 }

/-- Options with a batch size of two, for the partition witness. -/
def sampleSmallBatchOptions : BatchOptions :=
  { batchSize := 2, sortOrderDesc := true, totalWorkers := 0 }

/-- Three-law worklist spanning two years, for the partition witness. -/
def sampleThreeLaws : List InputLaw :=
  [ { title := ("x 01/01/2019".data), date := [], link := ("p/ID/160500".data) }
  , { title := ("y 01/01/2020".data), date := [], link := ("p/ID/161500".data) }
  , { title := ("z 02/02/2019".data), date := [], link := ("p/ID/160600".data) } ]

/-- Parse outcomes of a directory with nine complete records and one file of
invalid JSON. -/
def sampleTenFiles : List (Option AggRecord) :=
  [ some { isComplete := true, textLength := 60, scrapedAt := 1 }
  , some { isComplete := true, textLength := 61, scrapedAt := 2 }
  , some { isComplete := true, textLength := 62, scrapedAt := 3 }
  , some { isComplete := true, textLength := 63, scrapedAt := 4 }
  , none
  , some { isComplete := true, textLength := 64, scrapedAt := 5 }
  , some { isComplete := true, textLength := 65, scrapedAt := 6 }
  , some { isComplete := true, textLength := 66, scrapedAt := 7 }
  , some { isComplete := true, textLength := 67, scrapedAt := 8 }
  , some { isComplete := true, textLength := 68, scrapedAt := 9 } ]

/-- Attempt outcome under which every attempt fails. -/
def alwaysFail : Nat → Bool := fun _ => false

/-- Per-item net outcome under which scraping never succeeds. -/
def attNever : InputLaw → Bool := fun _ => false

/-- Per-item net outcome under which scraping always succeeds. -/
def attAlways : InputLaw → Bool := fun _ => true

/-- Single work item with law id seven. -/
def sampleItem : InputLaw :=
  { title := ("t".data), date := [], link := ("x/ID/7".data) }

/-- Scraping data holding fifty-one characters of text. -/
def sampleRichData : ScrapingData :=
  { fullText := some (List.replicate 51 'a') }

set_option maxRecDepth 100000

/-- C5: for every input law and every scrapingData argument (and any
timestamp), the record produced by createScrapedLaw has textLength equal to
the length of its stored fullText, and isComplete is true exactly when the
stored fullText is non-empty and textLength exceeds the threshold of fifty
(the literal in createScrapedLaw, the default of the configurable
minTextLength). -/
theorem c5_createScrapedLaw_invariants (inputLaw : InputLaw) (d : ScrapingData)
    (now : List Char) :
    (createScrapedLaw inputLaw d now).textLength
        = (createScrapedLaw inputLaw d now).fullText.length
    ∧ ((createScrapedLaw inputLaw d now).isComplete = true ↔
        (createScrapedLaw inputLaw d now).fullText ≠ []
          ∧ 50 < (createScrapedLaw inputLaw d now).textLength) := by
  refine ⟨rfl, ?_⟩
  cases hd : d.fullText with
  | none => simp [createScrapedLaw, hd]
  | some t =>
    simp only [createScrapedLaw, hd, Option.getD_some, Bool.and_eq_true,
      Bool.not_eq_true', decide_eq_true_eq, List.isEmpty_iff, ne_eq]
    constructor
    · rintro ⟨h1, h2⟩
      refine ⟨fun hnil => ?_, h2⟩
      subst hnil
      simp at h1
    · rintro ⟨h1, h2⟩
      refine ⟨?_, h2⟩
      cases t
      · exact absurd rfl h1
      · rfl

/-- C10: whenever the save-gated attempt of scrapeSingleLaw persists a
record (returns one rather than throwing), that record has isComplete true,
equivalently a fullText longer than fifty characters; an attempt that
extracts insufficient content never writes an output file. -/
theorem c10_saved_records_are_complete (law : InputLaw) (d : ScrapingData)
    (now : List Char) (r : ScrapedLaw)
    (h : attemptCreateAndSave law d now = some r) :
    r.isComplete = true ∧ 50 < r.fullText.length := by
  unfold attemptCreateAndSave at h
  by_cases hc : (createScrapedLaw law d now).isComplete
  · rw [if_pos hc] at h
    cases h
    refine ⟨hc, ?_⟩
    revert hc
    cases hd : d.fullText with
    | none => simp [createScrapedLaw, hd]
    | some t =>
      simp only [createScrapedLaw, hd, Option.getD_some, Bool.and_eq_true,
        Bool.not_eq_true', decide_eq_true_eq]
      intro h2
      exact h2.2
  · rw [if_neg hc] at h
    cases h

/-- Witness for C10 at a concrete record of fifty-one characters. -/
theorem c10_saved_records_are_complete_witness :
    (createScrapedLaw sampleItem sampleRichData []).isComplete = true
      ∧ 50 < (createScrapedLaw sampleItem sampleRichData []).fullText.length :=
  c10_saved_records_are_complete sampleItem sampleRichData []
    (createScrapedLaw sampleItem sampleRichData []) (by decide)

/-- C7: at the failing input (the constructor defaults with ten workers and
a worklist of five laws), the equal strategy returns a single batch of five
laws, not five batches of size one targeting the worker count; the computed
per-worker batch size is discarded because createBatchesBySize ignores its
extra argument. -/
theorem c7_equal_strategy_ignores_worker_count :
    (createBatchesByStrategy sampleEqualOptions BatchStrategy.equal
        sampleFiveLaws).map (fun b => b.size) = [5]
    ∧ ((sampleFiveLaws.length + 10 - 1) / 10) = 1 := by decide

/-- The conditional severity update of the checks keeps critical and
otherwise overwrites with a non-critical level. -/
theorem bump_severity_iff (s x : Severity) (hx : x ≠ Severity.critical) :
    ((if s == Severity.critical then Severity.critical else x)
        = Severity.critical) ↔ s = Severity.critical := by
  cases s <;> simp_all

/-- The invalid-ending check reports critical exactly when its input was
already critical. -/
theorem invalidEndingCheck_severity_iff (b : Bool) (r : ValidationResult) :
    (invalidEndingCheck b r).severity = Severity.critical
      ↔ r.severity = Severity.critical := by
  unfold invalidEndingCheck
  split
  · show (if r.severity == Severity.critical then Severity.critical
        else Severity.high) = Severity.critical ↔ r.severity = Severity.critical
    exact bump_severity_iff r.severity .high (by simp)
  · exact Iff.rfl

/-- The suspicious-ending check reports critical exactly when its input was
already critical. -/
theorem suspiciousEndingCheck_severity_iff (b1 b2 : Bool) (w : Nat)
    (r : ValidationResult) :
    (suspiciousEndingCheck b1 b2 w r).severity = Severity.critical
      ↔ r.severity = Severity.critical := by
  unfold suspiciousEndingCheck
  split
  · show (if r.severity == Severity.critical then Severity.critical
        else Severity.medium) = Severity.critical ↔ r.severity = Severity.critical
    exact bump_severity_iff r.severity .medium (by simp)
  · exact Iff.rfl

/-- The truncation check reports critical exactly when its input was already
critical. -/
theorem truncationCheck_severity_iff (b : Bool) (r : ValidationResult) :
    (truncationCheck b r).severity = Severity.critical
      ↔ r.severity = Severity.critical := by
  unfold truncationCheck
  split
  · show (if r.severity == Severity.critical then Severity.critical
        else Severity.high) = Severity.critical ↔ r.severity = Severity.critical
    exact bump_severity_iff r.severity .high (by simp)
  · exact Iff.rfl

/-- The encoding check reports critical exactly when its input was already
critical. -/
theorem encodingCheck_severity_iff (b : Bool) (r : ValidationResult) :
    (encodingCheck b r).severity = Severity.critical
      ↔ r.severity = Severity.critical := by
  unfold encodingCheck
  split
  · show (if r.severity == Severity.critical then Severity.critical
        else Severity.medium) = Severity.critical ↔ r.severity = Severity.critical
    exact bump_severity_iff r.severity .medium (by simp)
  · exact Iff.rfl

/-- The structure check reports critical exactly when its input was already
critical. -/
theorem structureCheck_severity_iff (n : Nat) (r : ValidationResult) :
    (structureCheck n r).severity = Severity.critical
      ↔ r.severity = Severity.critical := by
  unfold structureCheck
  split
  · show (if r.severity == Severity.none then Severity.low else r.severity)
        = Severity.critical ↔ r.severity = Severity.critical
    cases hr : r.severity <;> simp_all
  · exact Iff.rfl

/-- The keyword check reports critical exactly when its input was already
critical. -/
theorem keywordCheck_severity_iff (b : Bool) (r : ValidationResult) :
    (keywordCheck b r).severity = Severity.critical
      ↔ r.severity = Severity.critical := by
  unfold keywordCheck
  split
  · show (if r.severity == Severity.critical then Severity.critical
        else Severity.high) = Severity.critical ↔ r.severity = Severity.critical
    exact bump_severity_iff r.severity .high (by simp)
  · exact Iff.rfl

/-- Applied to the initial result, the length check yields critical exactly
below one hundred characters. -/
theorem lengthCheck_base_severity_iff (t : List Char) :
    (lengthCheck t baseResult).severity = Severity.critical
      ↔ t.length < 100 := by
  unfold lengthCheck baseResult
  split_ifs with h1 h2 <;> simp_all


/-- C1 counterexample: a record one hundred and four characters long with a
replacement character and a valid ending carries the issues very-short (a
high-level issue in the taxonomy), encoding-issues (medium) and
poor-structure (low), yet the validator reports severity medium: the
encoding check lowered the high severity set by the length check, and the
final severity is below the maximum (high) over the detected issues. -/
theorem c1_severity_not_monotone_max :
    (validateLawText { fullText := some sampleMixedText }).issues
        = ["very_short", "encoding_issues", "poor_structure"]
    ∧ (validateLawText { fullText := some sampleMixedText }).severity
        = Severity.medium
    ∧ maxSeverity (((validateLawText { fullText := some sampleMixedText }).issues).map
        specIssueSeverity) = Severity.high
    ∧ Severity.medium ≠ Severity.high := by decide

/-- C1 (amended): every check of validateLawText preserves the critical
level once set, so the final severity is critical exactly when the text is
missing, empty or shorter than one hundred characters; in particular a
record with both a low-level and a critical-level issue is reported
critical.  Below the critical level, later checks can lower the severity,
so the final severity is not the maximum over the detected issues. -/
theorem c1_validator_critical_persistence (lawData : LawData) :
    (validateLawText lawData).severity = Severity.critical
      ↔ (lawData.fullText.getD []).length < 100 := by
  cases hft : lawData.fullText with
  | none => simp [validateLawText, hft]
  | some fullText =>
    cases fullText with
    | nil => simp [validateLawText, hft]
    | cons c cs =>
      simp only [validateLawText, hft, List.isEmpty_cons, Bool.false_eq_true,
        if_false, Option.getD_some]
      rw [keywordCheck_severity_iff, structureCheck_severity_iff,
        encodingCheck_severity_iff, truncationCheck_severity_iff,
        suspiciousEndingCheck_severity_iff, invalidEndingCheck_severity_iff,
        lengthCheck_base_severity_iff]

/-- The head of a dropWhile result does not satisfy the predicate. -/
theorem dropWhile_cons_head_false (p : Char → Bool) :
    ∀ (l : List Char) (a : Char) (t : List Char),
      l.dropWhile p = a :: t → p a = false := by
  intro l
  induction l with
  | nil =>
    intro a t h
    simp [List.dropWhile] at h
  | cons c cs ih =>
    intro a t h
    rw [List.dropWhile_cons] at h
    by_cases hc : p c = true
    · rw [if_pos hc] at h
      exact ih a t h
    · rw [if_neg hc] at h
      cases h
      exact Bool.not_eq_true _ |>.mp hc

/-- A list whose head does not satisfy the predicate is unchanged by
dropWhile. -/
theorem dropWhile_headD_false (p : Char → Bool) (m : List Char)
    (h : p (m.headD 'x') = false) : m.dropWhile p = m := by
  cases m with
  | nil => rfl
  | cons c cs =>
    rw [List.dropWhile_cons, if_neg]
    simp only [List.headD_cons] at h
    simp [h]

/-- The trimmed list is a prefix of the left-trimmed list. -/
theorem trimList_prefix_dropWhile (l : List Char) :
    trimList l <+: l.dropWhile isWs := by
  unfold trimList
  have hs : (l.dropWhile isWs).reverse.dropWhile isWs
      <:+ (l.dropWhile isWs).reverse := List.dropWhile_suffix _
  have := List.reverse_prefix.mpr
    (by simpa using hs :
      ((l.dropWhile isWs).reverse.dropWhile isWs).reverse.reverse
        <:+ (l.dropWhile isWs).reverse)
  simpa using this

/-- A nonempty trim result starts with a non-whitespace character. -/
theorem trimList_headD_not_ws (l : List Char) (h : trimList l ≠ []) :
    isWs ((trimList l).headD 'x') = false := by
  obtain ⟨w, hw⟩ := trimList_prefix_dropWhile l
  cases htl : trimList l with
  | nil => exact absurd htl h
  | cons a t =>
    rw [htl] at hw
    have : l.dropWhile isWs = a :: (t ++ w) := by
      rw [← hw]
      simp
    have := dropWhile_cons_head_false isWs l a (t ++ w) this
    simpa [htl] using this

/-- A list whose head and last characters are not whitespace is unchanged by
a trim. -/
theorem trimList_eq_self (l : List Char) (h1 : isWs (l.headD 'x') = false)
    (h2 : isWs (l.getLastD 'x') = false) : trimList l = l := by
  unfold trimList
  rw [dropWhile_headD_false isWs l h1]
  rw [dropWhile_headD_false isWs l.reverse]
  · simp
  · cases hl : l.reverse with
    | nil => simp [isWs, jsWhitespace]
    | cons c cs =>
      have : l.reverse.head? = some c := by rw [hl]; rfl
      rw [List.head?_reverse] at this
      have hgl : l.getLastD 'x' = c := by
        rw [List.getLastD_eq_getLast?, this]
        rfl
      simp only [hl, List.headD_cons]
      rw [← hgl]
      exact h2

/-- The head default of an append with a nonempty left part. -/
theorem headD_append_left (a b : List Char) (d : Char) (h : a ≠ []) :
    (a ++ b).headD d = a.headD d := by
  cases a with
  | nil => exact absurd rfl h
  | cons x xs => rfl

/-- The last default of an append with a nonempty right part. -/
theorem getLastD_append_right (a b : List Char) (h : b ≠ []) :
    ∀ d, (a ++ b).getLastD d = b.getLastD d := by
  induction a with
  | nil => intro d; rfl
  | cons x xs ih =>
    intro d
    rw [List.cons_append, List.getLastD_cons d x (xs ++ b), ih x]
    cases b with
    | nil => exact absurd rfl h
    | cons y ys => rfl

/-- The head default of a positive take. -/
theorem headD_take_pos (t : List Char) (n : Nat) (hn : 1 ≤ n) (ht : t ≠ []) :
    (t.take n).headD 'x' = t.headD 'x' := by
  cases t with
  | nil => exact absurd rfl ht
  | cons c cs =>
    cases n with
    | zero => omega
    | succ m => rfl

/-- C2 counterexample: with a configured maximum of ten and a
sixteen-character extracted text, the normalized output has length
twenty-two, not ten plus the length of the truncation marker (twenty-one):
the source appends a newline before the marker. -/
theorem c2_truncated_length_off_by_one :
    10 < samplePlainText.length
    ∧ (extractLawContentFullText 10 samplePlainText).length = 22
    ∧ (extractLawContentFullText 10 samplePlainText).length
        ≠ 10 + ("[TRUNCATED]".data).length := by decide

/-- C2 (amended): whenever the boundary-processed text exceeds the
configured positive maximum, the normalized output has length exactly the
maximum plus the length of the appended newline-plus-marker (twelve
characters) and ends with the literal truncation marker. -/
theorem c2_truncation_marker (maxTextLength : Nat) (raw : List Char)
    (hmax : 1 ≤ maxTextLength)
    (hlong : maxTextLength < (processLawText raw).length) :
    (extractLawContentFullText maxTextLength raw).length
        = maxTextLength + ("\n[TRUNCATED]".data).length
    ∧ ("[TRUNCATED]".data) <:+ extractLawContentFullText maxTextLength raw := by
  have hraw : raw.isEmpty = false := by
    cases raw with
    | nil =>
      exfalso
      have h0 : processLawText [] = [] := rfl
      rw [h0] at hlong
      simp at hlong
    | cons c cs => rfl
  have htne : processLawText raw ≠ [] := by
    intro h0
    rw [h0] at hlong
    simp at hlong
  have hpl : processLawText raw
      = trimList ((raw.take (processLawTextEndIndex raw)).drop
          (processLawTextStartIndex raw)) := by
    unfold processLawText
    simp [hraw]
  have hthead : isWs ((processLawText raw).headD 'x') = false := by
    rw [hpl]
    apply trimList_headD_not_ws
    rw [← hpl]
    exact htne
  have hkey : extractLawContentFullText maxTextLength raw
      = (processLawText raw).take maxTextLength ++ ("\n[TRUNCATED]".data) := by
    unfold extractLawContentFullText
    simp only [hraw, Bool.false_eq_true, if_false, hlong, if_pos]
    apply trimList_eq_self
    · rw [headD_append_left _ _ _ (by
        intro h0
        rcases List.take_eq_nil_iff.mp h0 with h | h
        · omega
        · exact htne h)]
      rw [headD_take_pos _ _ hmax htne]
      exact hthead
    · rw [getLastD_append_right _ _ (by decide)]
      decide
  constructor
  · rw [hkey]
    simp only [List.length_append, List.length_take]
    rw [Nat.min_eq_left (Nat.le_of_lt hlong)]
  · rw [hkey]
    exact ⟨(processLawText raw).take maxTextLength ++ ['\n'], by
      rw [List.append_assoc]
      rfl⟩

/-- Witness for C2 at the concrete maximum ten and sixteen-character text. -/
theorem c2_truncation_marker_witness :
    (extractLawContentFullText 10 samplePlainText).length
        = 10 + ("\n[TRUNCATED]".data).length
    ∧ ("[TRUNCATED]".data) <:+ extractLawContentFullText 10 samplePlainText :=
  c2_truncation_marker 10 samplePlainText (by decide) (by decide)

/-- Every signature end pattern is anchored at the end of the input, so the
end offset computed by processLawText always equals the text length. -/
theorem processLawTextEndIndex_eq_length (t : List Char) :
    processLawTextEndIndex t = t.length := by
  unfold processLawTextEndIndex
  cases h1 : firstEndMatchIndex "председател" 200 t with
  | some i =>
    unfold firstEndMatchIndex at h1
    have hi := List.mem_range.mp (List.mem_of_find?_eq_some h1)
    exact Nat.add_sub_cancel' (by omega)
  | none =>
    cases h2 : firstEndMatchIndex "министър-председател" 200 t with
    | some i =>
      unfold firstEndMatchIndex at h2
      have hi := List.mem_range.mp (List.mem_of_find?_eq_some h2)
      exact Nat.add_sub_cancel' (by omega)
    | none =>
      cases h3 : firstEndMatchIndex "издаден" 100 t with
      | some i =>
        unfold firstEndMatchIndex at h3
        have hi := List.mem_range.mp (List.mem_of_find?_eq_some h3)
        exact Nat.add_sub_cancel' (by omega)
      | none => rfl

/-- processLawText returns the trimmed suffix of the text from the chosen
start offset: the end-of-input anchoring of the signature patterns means no
trailing content is ever excluded. -/
theorem processLawText_drop_start (t : List Char) :
    processLawText t = trimList (t.drop (processLawTextStartIndex t)) := by
  cases t with
  | nil => rfl
  | cons c cs =>
    unfold processLawText
    rw [processLawTextEndIndex_eq_length, List.take_length]
    simp [List.isEmpty_cons]

/-- A start-pattern match position lies inside the text, provided no tail of
the pattern matches the empty input. -/
theorem anchoredStartMatchAt_lt (tails : List (List PatItem)) (t : List Char)
    (i : Nat) (hne : tails.any (fun ps => matchItems ps []) = false)
    (h : anchoredStartMatchAt tails t i = true) : i < t.length := by
  unfold anchoredStartMatchAt at h
  by_cases h0 : i = 0
  · subst h0
    cases t with
    | nil =>
      rw [List.any_eq_false] at hne
      rcases Bool.or_eq_true_iff.mp h with h | h
      · obtain ⟨x, hx1, hx2⟩ := List.any_eq_true.mp h
        exact absurd hx2 (hne x hx1)
      · simp at h
    | cons c cs => simp
  · rw [if_neg h0] at h
    by_contra hlt
    rw [List.getD_eq_default t ' ' (by omega)] at h
    simp at h

/-- When exactly one position of the text matches an opening pattern, the
start offset chosen by processLawText is that position. -/
theorem processLawTextStartIndex_eq_of_unique (t : List Char) (i : Nat)
    (hcount : countStartMatches t = 1)
    (hmatch : (anchoredStartMatchAt [lawStartTail1A, lawStartTail1B] t i
      || anchoredStartMatchAt [lawStartTail2] t i
      || anchoredStartMatchAt [lawStartTail3] t i) = true) :
    processLawTextStartIndex t = i := by
  have hi : i < t.length := by
    rcases Bool.or_eq_true_iff.mp hmatch with h | h
    · rcases Bool.or_eq_true_iff.mp h with h | h
      · exact anchoredStartMatchAt_lt _ t i (by decide) h
      · exact anchoredStartMatchAt_lt _ t i (by decide) h
    · exact anchoredStartMatchAt_lt _ t i (by decide) h
  rw [countStartMatches, List.countP_eq_length_filter] at hcount
  obtain ⟨j, hj⟩ := List.length_eq_one.mp hcount
  have hij : i = j := by
    have hmem : i ∈ (List.range t.length).filter (fun k =>
        anchoredStartMatchAt [lawStartTail1A, lawStartTail1B] t k
          || anchoredStartMatchAt [lawStartTail2] t k
          || anchoredStartMatchAt [lawStartTail3] t k) :=
      List.mem_filter.mpr ⟨List.mem_range.mpr hi, hmatch⟩
    rw [hj] at hmem
    simpa using hmem
  subst hij
  unfold processLawTextStartIndex
  cases hf1 : firstStartIndex [lawStartTail1A, lawStartTail1B] t with
  | some k =>
    unfold firstStartIndex at hf1
    have hkmem := List.mem_of_find?_eq_some hf1
    have hk := List.find?_some hf1
    have : k ∈ (List.range t.length).filter (fun m =>
        anchoredStartMatchAt [lawStartTail1A, lawStartTail1B] t m
          || anchoredStartMatchAt [lawStartTail2] t m
          || anchoredStartMatchAt [lawStartTail3] t m) :=
      List.mem_filter.mpr ⟨hkmem, by simp [hk]⟩
    rw [hj] at this
    simpa using this
  | none =>
    unfold firstStartIndex at hf1
    have hnone1 := List.find?_eq_none.mp hf1
    have ha1 : anchoredStartMatchAt [lawStartTail1A, lawStartTail1B] t i
        = false :=
      Bool.eq_false_iff.mpr (hnone1 i (List.mem_range.mpr hi))
    cases hf2 : firstStartIndex [lawStartTail2] t with
    | some k =>
      unfold firstStartIndex at hf2
      have hkmem := List.mem_of_find?_eq_some hf2
      have hk := List.find?_some hf2
      have : k ∈ (List.range t.length).filter (fun m =>
          anchoredStartMatchAt [lawStartTail1A, lawStartTail1B] t m
            || anchoredStartMatchAt [lawStartTail2] t m
            || anchoredStartMatchAt [lawStartTail3] t m) :=
        List.mem_filter.mpr ⟨hkmem, by simp [hk]⟩
      rw [hj] at this
      simpa using this
    | none =>
      unfold firstStartIndex at hf2
      have hnone2 := List.find?_eq_none.mp hf2
      have ha2 : anchoredStartMatchAt [lawStartTail2] t i = false :=
        Bool.eq_false_iff.mpr (hnone2 i (List.mem_range.mpr hi))
      cases hf3 : firstStartIndex [lawStartTail3] t with
      | some k =>
        unfold firstStartIndex at hf3
        have hkmem := List.mem_of_find?_eq_some hf3
        have hk := List.find?_some hf3
        have : k ∈ (List.range t.length).filter (fun m =>
            anchoredStartMatchAt [lawStartTail1A, lawStartTail1B] t m
              || anchoredStartMatchAt [lawStartTail2] t m
              || anchoredStartMatchAt [lawStartTail3] t m) :=
          List.mem_filter.mpr ⟨hkmem, by simp [hk]⟩
        rw [hj] at this
        simpa using this
      | none =>
        unfold firstStartIndex at hf3
        have hnone3 := List.find?_eq_none.mp hf3
        have ha3 : anchoredStartMatchAt [lawStartTail3] t i = false :=
          Bool.eq_false_iff.mpr (hnone3 i (List.mem_range.mpr hi))
        rw [ha1, ha2, ha3] at hmatch
        simp at hmatch

/-- C3 counterexample: a text with exactly one opening marker and exactly
one signature-block marker for which the normalized output retains the
trailing footer after the signature block, contradicting the claim that the
slice ends immediately after the signature match excluding trailing
content. -/
theorem c3_signature_footer_included :
    countStartMatches sampleSignedText = 1
    ∧ countSigMarkers sampleSignedText = 1
    ∧ ("footer след подписа".data) <:+ processLawText sampleSignedText := by
  refine ⟨by decide, by decide, by decide⟩

/-- C3 (amended): the signature end patterns are anchored to the text's end,
so the end offset always equals the text length and the normalized output is
the trimmed suffix from the start offset — trailing content after the
signature block is included, never excluded; the start part of the claim
stands: with exactly one opening-pattern match, the slice starts at that
match. -/
theorem c3_boundary_detection (t : List Char) :
    processLawTextEndIndex t = t.length
    ∧ processLawText t = trimList (t.drop (processLawTextStartIndex t))
    ∧ (∀ i, countStartMatches t = 1 →
        (anchoredStartMatchAt [lawStartTail1A, lawStartTail1B] t i
          || anchoredStartMatchAt [lawStartTail2] t i
          || anchoredStartMatchAt [lawStartTail3] t i) = true →
        processLawTextStartIndex t = i) :=
  ⟨processLawTextEndIndex_eq_length t, processLawText_drop_start t,
    fun i hc hm => processLawTextStartIndex_eq_of_unique t i hc hm⟩

/-- Witness for C3 at a text whose unique opening match sits at position
two. -/
theorem c3_boundary_detection_witness :
    processLawTextStartIndex sampleOpeningText = 2 :=
  (c3_boundary_detection sampleOpeningText).2.2 2 (by decide) (by decide)

/-- A parsed file contributes its record to a filterMap over the identity. -/
theorem filterMap_id_cons_some (law : AggRecord)
    (fs : List (Option AggRecord)) :
    (some law :: fs).filterMap id = law :: fs.filterMap id := rfl

/-- A failed parse contributes nothing to a filterMap over the identity. -/
theorem filterMap_id_cons_none (fs : List (Option AggRecord)) :
    ((none : Option AggRecord) :: fs).filterMap id = fs.filterMap id := rfl

/-- The aggregator loop appends exactly the parsed records, in order. -/
theorem aggregate_fold_laws (files : List (Option AggRecord)) :
    ∀ (ls : List AggRecord) (st : AggStats),
      (files.foldl aggStep (ls, st)).1 = ls ++ files.filterMap id := by
  induction files with
  | nil => intro ls st; simp
  | cons f fs ih =>
    intro ls st
    cases f with
    | none => simp [aggStep, ih, filterMap_id_cons_none]
    | some law =>
      rw [filterMap_id_cons_some]
      by_cases hg : (law.isComplete && decide (50 < law.textLength)) = true
      · rw [List.foldl_cons]
        show (fs.foldl aggStep (aggStep (ls, st) (some law))).1 = _
        rw [show aggStep (ls, st) (some law)
            = (ls ++ [law], (aggStep (ls, st) (some law)).2) from by
          simp [aggStep, hg]]
        rw [ih]
        simp
      · rw [List.foldl_cons]
        show (fs.foldl aggStep (aggStep (ls, st) (some law))).1 = _
        rw [show aggStep (ls, st) (some law)
            = (ls ++ [law], (aggStep (ls, st) (some law)).2) from by
          simp [aggStep, hg]]
        rw [ih]
        simp

/-- The aggregator's total counts exactly the parsed records. -/
theorem aggregate_fold_total (files : List (Option AggRecord)) :
    ∀ (ls : List AggRecord) (st : AggStats),
      (files.foldl aggStep (ls, st)).2.total
        = st.total + (files.filterMap id).length := by
  induction files with
  | nil => intro ls st; simp
  | cons f fs ih =>
    intro ls st
    cases f with
    | none =>
      rw [filterMap_id_cons_none]
      simp [aggStep, ih]
    | some law =>
      rw [filterMap_id_cons_some, List.length_cons]
      by_cases hg : (law.isComplete && decide (50 < law.textLength)) = true
      · simp [aggStep, hg, ih]
        omega
      · simp [aggStep, hg, ih]
        omega

/-- The aggregator's error count sums the parse failures and the parsed but
incomplete records. -/
theorem aggregate_fold_withErrors (files : List (Option AggRecord)) :
    ∀ (ls : List AggRecord) (st : AggStats),
      (files.foldl aggStep (ls, st)).2.withErrors
        = st.withErrors + files.countP (fun f => f.isNone)
          + (files.filterMap id).countP
              (fun law => !(law.isComplete && decide (50 < law.textLength))) := by
  induction files with
  | nil => intro ls st; simp
  | cons f fs ih =>
    intro ls st
    have hpair : aggStep (ls, st) f
        = ((aggStep (ls, st) f).1, (aggStep (ls, st) f).2) := rfl
    cases f with
    | none =>
      rw [filterMap_id_cons_none, List.foldl_cons, hpair, ih]
      have hw : (aggStep (ls, st) (none : Option AggRecord)).2.withErrors
          = st.withErrors + 1 := rfl
      rw [hw, List.countP_cons]
      simp only [Option.isNone_none, if_true]
      omega
    | some law =>
      rw [List.foldl_cons, hpair, ih]
      have hnone : (some law :: fs).countP (fun f => f.isNone)
          = fs.countP (fun f => f.isNone) := by
        rw [List.countP_cons]
        simp
      by_cases hg : (law.isComplete && decide (50 < law.textLength)) = true
      · have hw : (aggStep (ls, st) (some law)).2.withErrors = st.withErrors := by
          simp [aggStep, hg]
        have hcount : ((some law :: fs).filterMap id).countP
            (fun law => !(law.isComplete && decide (50 < law.textLength)))
            = (fs.filterMap id).countP
                (fun law => !(law.isComplete && decide (50 < law.textLength))) := by
          rw [filterMap_id_cons_some, List.countP_cons]
          simp [hg]
        rw [hw, hcount, hnone]
      · have hg' : (law.isComplete && decide (50 < law.textLength)) = false :=
          Bool.eq_false_iff.mpr hg
        have hw : (aggStep (ls, st) (some law)).2.withErrors
            = st.withErrors + 1 := by
          simp [aggStep, hg']
        have hcount : ((some law :: fs).filterMap id).countP
            (fun law => !(law.isComplete && decide (50 < law.textLength)))
            = (fs.filterMap id).countP
                (fun law => !(law.isComplete && decide (50 < law.textLength)))
              + 1 := by
          rw [filterMap_id_cons_some, List.countP_cons]
          simp [hg']
        rw [hw, hcount, hnone]
        omega

/-- The parsed records and the parse failures exhaust the files. -/
theorem filterMap_id_length_add_countP_isNone
    (files : List (Option AggRecord)) :
    (files.filterMap id).length + files.countP (fun f => f.isNone)
      = files.length := by
  induction files with
  | nil => rfl
  | cons f fs ih =>
    cases f with
    | none => simp [List.filterMap_cons, List.countP_cons]; omega
    | some law => simp [List.filterMap_cons, List.countP_cons]; omega

/-- C4 counterexample: over nine parseable complete records and one invalid
file, the aggregator reports a total of nine, not ten — a file that fails to
parse is not counted into the total (only into the errors). -/
theorem c4_total_counts_only_parsed :
    (aggregate sampleTenFiles []).totalScrapedLaws = 9
    ∧ (aggregate sampleTenFiles []).totalScrapedLaws ≠ 10
    ∧ (aggregate sampleTenFiles []).errorLaws = 1 := by decide

/-- C4 (amended): over any directory of ten files of which one fails to
parse and the nine parsed records are complete, aggregation completes with
a reported total of nine (parse failures are excluded from the total),
exactly one error, and all nine parsed records in the consolidated list. -/
theorem c4_aggregate_resilient (files : List (Option AggRecord))
    (failedLaws : List FailureRecord)
    (h10 : files.length = 10)
    (h1 : files.countP (fun f => f.isNone) = 1)
    (hgood : ∀ law ∈ files.filterMap id,
      law.isComplete = true ∧ 50 < law.textLength) :
    (aggregate files failedLaws).totalScrapedLaws = 9
    ∧ (aggregate files failedLaws).errorLaws = 1
    ∧ ((aggregate files failedLaws).scrapedLaws).Perm (files.filterMap id)
    ∧ (files.filterMap id).length = 9 := by
  have hlen : (files.filterMap id).length = 9 := by
    have := filterMap_id_length_add_countP_isNone files
    omega
  have hcount0 : (files.filterMap id).countP
      (fun law => !(law.isComplete && decide (50 < law.textLength))) = 0 := by
    rw [List.countP_eq_zero]
    intro law hlaw
    obtain ⟨hc, hl⟩ := hgood law hlaw
    simp [hc, hl]
  have htot : (aggregate files failedLaws).totalScrapedLaws
      = (files.filterMap id).length := by
    unfold aggregate
    dsimp only
    split
    · simpa using aggregate_fold_total files [] {}
    · simpa using aggregate_fold_total files [] {}
  have herr : (aggregate files failedLaws).errorLaws
      = files.countP (fun f => f.isNone) := by
    unfold aggregate
    dsimp only
    have hwe := aggregate_fold_withErrors files [] {}
    rw [hcount0] at hwe
    split
    · simpa using hwe
    · simpa using hwe
  refine ⟨by rw [htot, hlen], by rw [herr, h1], ?_, hlen⟩
  have hlaws : (aggregate files failedLaws).scrapedLaws
      = ((files.foldl aggStep ([], {})).1).mergeSort
          (fun a b => decide (b.scrapedAt ≤ a.scrapedAt)) := by
    unfold aggregate
    dsimp only
  rw [hlaws, aggregate_fold_laws files [] {}]
  simpa using List.mergeSort_perm (files.filterMap id)
    (fun a b => decide (b.scrapedAt ≤ a.scrapedAt))

/-- Witness for C4 at the concrete nine-plus-one directory. -/
theorem c4_aggregate_resilient_witness :
    (aggregate sampleTenFiles []).totalScrapedLaws = 9
    ∧ (aggregate sampleTenFiles []).errorLaws = 1
    ∧ ((aggregate sampleTenFiles []).scrapedLaws).Perm
        (sampleTenFiles.filterMap id)
    ∧ (sampleTenFiles.filterMap id).length = 9 :=
  c4_aggregate_resilient sampleTenFiles [] (by decide) (by decide) (by decide)

/-- A successful attempt, and the final attempt, end the retry trace: no
event follows them. -/
theorem retryLoopFrom_end_lemma (outcome : Nat → Bool) (maxRetries : Nat) :
    ∀ n a, maxRetries + 1 - a ≤ n →
      ∀ i b, RetryEvent.attempt i b ∈ retryLoopFrom outcome maxRetries a →
        (b = true ∨ i = maxRetries) →
        ∃ pre, retryLoopFrom outcome maxRetries a
          = pre ++ [RetryEvent.attempt i b] := by
  intro n
  induction n with
  | zero =>
    intro a ha i b hmem hbi
    rw [retryLoopFrom, dif_pos (by omega : maxRetries < a)] at hmem
    exact absurd hmem (List.not_mem_nil _)
  | succ n ih =>
    intro a ha i b hmem hbi
    rw [retryLoopFrom] at hmem ⊢
    by_cases hma : maxRetries < a
    · rw [dif_pos hma] at hmem
      exact absurd hmem (List.not_mem_nil _)
    · rw [dif_neg hma] at hmem ⊢
      by_cases ho : outcome a = true
      · rw [if_pos ho] at hmem ⊢
        have heq := List.mem_singleton.mp hmem
        injection heq with hi hb
        subst hi
        subst hb
        exact ⟨[], rfl⟩
      · rw [if_neg ho] at hmem ⊢
        by_cases halt : a < maxRetries
        · rw [if_pos halt] at hmem ⊢
          rcases List.mem_cons.mp hmem with heq | hmem2
          · injection heq with hi hb
            subst hi
            subst hb
            rcases hbi with hb | hi
            · cases hb
            · omega
          · rcases List.mem_cons.mp hmem2 with heq | hmem3
            · cases heq
            · obtain ⟨pre, hpre⟩ := ih (a + 1) (by omega) i b hmem3 hbi
              refine ⟨RetryEvent.attempt a false
                :: RetryEvent.sleep (backoffDelay a) :: pre, ?_⟩
              rw [hpre]
              rfl
        · rw [if_neg halt] at hmem ⊢
          have heq := List.mem_singleton.mp hmem
          injection heq with hi hb
          subst hi
          subst hb
          exact ⟨[], rfl⟩

/-- A failed attempt that is not the last is followed, contiguously, by the
capped exponential backoff sleep and the next attempt. -/
theorem retryLoopFrom_infix_lemma (outcome : Nat → Bool) (maxRetries : Nat) :
    ∀ n a, maxRetries + 1 - a ≤ n →
      ∀ i, a ≤ i → i < maxRetries → outcome i = false →
        (∀ j, a ≤ j → j < i → outcome j = false) →
        [RetryEvent.attempt i false, RetryEvent.sleep (backoffDelay i),
         RetryEvent.attempt (i + 1) (outcome (i + 1))]
          <:+: retryLoopFrom outcome maxRetries a := by
  intro n
  induction n with
  | zero =>
    intro a ha i hai hi ho hj
    omega
  | succ n ih =>
    intro a ha i hai hi ho hj
    by_cases hia : i = a
    · subst hia
      rw [retryLoopFrom, dif_neg (by omega : ¬ maxRetries < i),
        if_neg (by simp [ho]), if_pos hi]
      rw [retryLoopFrom, dif_neg (by omega : ¬ maxRetries < i + 1)]
      by_cases ho1 : outcome (i + 1) = true
      · rw [if_pos ho1, ho1]
      · have ho1' : outcome (i + 1) = false := Bool.eq_false_iff.mpr ho1
        rw [if_neg ho1, ho1']
        by_cases h2 : i + 1 < maxRetries
        · rw [if_pos h2]
          exact List.IsPrefix.isInfix ⟨RetryEvent.sleep (backoffDelay (i + 1))
            :: retryLoopFrom outcome maxRetries (i + 1 + 1), rfl⟩
        · rw [if_neg h2]
    · have hoa : outcome a = false := hj a (Nat.le_refl a) (by omega)
      rw [retryLoopFrom, dif_neg (by omega : ¬ maxRetries < a),
        if_neg (by simp [hoa]), if_pos (by omega : a < maxRetries)]
      have hinf := ih (a + 1) (by omega) i (by omega) hi ho
        (fun j hj1 hj2 => hj j (by omega) hj2)
      exact List.infix_cons (List.infix_cons hinf)

/-- C8: in the per-item retry loop, a failed attempt below the retry bound
is followed by a sleep of exactly the base times two to the attempt minus
one, capped at ten seconds, and then the next attempt; a successful attempt
ends the trace, and attempt maxRetries ends the trace, so no delay or
further attempt occurs after either. -/
theorem c8_retry_backoff (outcome : Nat → Bool) (maxRetries : Nat)
    (hmr : 1 ≤ maxRetries) :
    (∀ i, 1 ≤ i → i < maxRetries → outcome i = false →
        (∀ j, 1 ≤ j → j < i → outcome j = false) →
        [RetryEvent.attempt i false,
         RetryEvent.sleep (min (1000 * 2 ^ (i - 1)) 10000),
         RetryEvent.attempt (i + 1) (outcome (i + 1))]
          <:+: retryTrace outcome maxRetries)
    ∧ (∀ i, RetryEvent.attempt i true ∈ retryTrace outcome maxRetries →
        ∃ pre, retryTrace outcome maxRetries
          = pre ++ [RetryEvent.attempt i true])
    ∧ (∀ b, RetryEvent.attempt maxRetries b ∈ retryTrace outcome maxRetries →
        ∃ pre, retryTrace outcome maxRetries
          = pre ++ [RetryEvent.attempt maxRetries b]) := by
  refine ⟨?_, ?_, ?_⟩
  · intro i h1 h2 h3 h4
    exact retryLoopFrom_infix_lemma outcome maxRetries maxRetries 1
      (by omega) i h1 h2 h3 h4
  · intro i hmem
    exact retryLoopFrom_end_lemma outcome maxRetries maxRetries 1
      (by omega) i true hmem (Or.inl rfl)
  · intro b hmem
    exact retryLoopFrom_end_lemma outcome maxRetries maxRetries 1
      (by omega) maxRetries b hmem (Or.inr rfl)

/-- Witness for C8: with every attempt failing and three retries, the trace
contains the first failed attempt, a one-second sleep, and the second
attempt, contiguously. -/
theorem c8_retry_backoff_witness :
    [RetryEvent.attempt 1 false, RetryEvent.sleep 1000,
     RetryEvent.attempt 2 false] <:+: retryTrace alwaysFail 3 :=
  (c8_retry_backoff alwaysFail 3 (by decide)).1 1 (by decide) (by decide) rfl
    (fun j h1 h2 => rfl)

/-- Processing an item never removes entries from the persisted-file set. -/
theorem processItem_files_mono (att : InputLaw → Bool) (st : SchedState)
    (law : InputLaw) (x : Option (List Char)) (hx : x ∈ st.files) :
    x ∈ (processItem att st law).files := by
  unfold processItem
  by_cases h1 : st.files.contains (extractLawId law.link) = true
  · rw [if_pos h1]
    exact hx
  · rw [if_neg h1]
    by_cases h2 : att law = true
    · rw [if_pos h2]
      exact List.mem_cons_of_mem _ hx
    · rw [if_neg h2]
      exact hx

/-- A scheduler run never removes entries from the persisted-file set. -/
theorem runScheduler_files_mono (att : InputLaw → Bool)
    (laws : List InputLaw) :
    ∀ (st : SchedState) (x : Option (List Char)), x ∈ st.files →
      x ∈ (laws.foldl (processItem att) st).files := by
  induction laws with
  | nil => intro st x hx; exact hx
  | cons l ls ih =>
    intro st x hx
    exact ih (processItem att st l) x (processItem_files_mono att st l x hx)

/-- After a run, every item whose deterministic outcome is success has its
output file in the persisted set (it was either skipped because the file
already existed, or scraped and persisted). -/
theorem runScheduler_success_persisted (att : InputLaw → Bool)
    (laws : List InputLaw) :
    ∀ (st : SchedState) (law : InputLaw), law ∈ laws → att law = true →
      extractLawId law.link ∈ (laws.foldl (processItem att) st).files := by
  induction laws with
  | nil => intro st law hmem; exact absurd hmem (List.not_mem_nil _)
  | cons l ls ih =>
    intro st law hmem hatt
    rcases List.mem_cons.mp hmem with heq | hmem2
    · subst heq
      rw [List.foldl_cons]
      apply runScheduler_files_mono
      unfold processItem
      by_cases h1 : st.files.contains (extractLawId law.link) = true
      · rw [if_pos h1]
        exact List.elem_iff.mp h1
      · rw [if_neg h1, if_pos hatt]
        exact List.mem_cons_self _ _
    · rw [List.foldl_cons]
      exact ih _ law hmem2 hatt

/-- A run over items whose successful ones are all already persisted records
no new successes. -/
theorem runScheduler_no_new_success (att : InputLaw → Bool)
    (laws : List InputLaw) :
    ∀ (st : SchedState),
      (∀ law ∈ laws, att law = true →
        (extractLawId law.link) ∈ st.files) →
      (laws.foldl (processItem att) st).stats.successful
        = st.stats.successful := by
  induction laws with
  | nil => intro st _; rfl
  | cons l ls ih =>
    intro st h
    rw [List.foldl_cons]
    by_cases hc : st.files.contains (extractLawId l.link) = true
    · have hstep : processItem att st l
          = { st with stats := { st.stats with
              skipped := st.stats.skipped + 1 } } := by
        unfold processItem
        rw [if_pos hc]
      rw [hstep]
      exact ih _ (fun law hm ha => h law (List.mem_cons_of_mem _ hm) ha)
    · have ha : att l = false := by
        cases hal : att l with
        | false => rfl
        | true =>
          exact absurd (List.elem_iff.mpr (h l (List.mem_cons_self _ _) hal))
            hc
      have hstep : processItem att st l
          = { st with stats := { st.stats with
              failed := st.stats.failed + 1
              processed := st.stats.processed + 1 } } := by
        unfold processItem
        rw [if_neg hc, if_neg (by simp [ha])]
      rw [hstep]
      exact ih _ (fun law hm hb => h law (List.mem_cons_of_mem _ hm) hb)

/-- A run over items that are all already persisted skips every one of them
and changes nothing else. -/
theorem runScheduler_all_skipped (att : InputLaw → Bool)
    (laws : List InputLaw) :
    ∀ (st : SchedState),
      (∀ law ∈ laws, (extractLawId law.link) ∈ st.files) →
      (laws.foldl (processItem att) st).stats.skipped
          = st.stats.skipped + laws.length
      ∧ (laws.foldl (processItem att) st).stats.successful
          = st.stats.successful
      ∧ (laws.foldl (processItem att) st).files = st.files := by
  induction laws with
  | nil => intro st _; exact ⟨rfl, rfl, rfl⟩
  | cons l ls ih =>
    intro st h
    rw [List.foldl_cons]
    have hc : st.files.contains (extractLawId l.link) = true :=
      List.elem_iff.mpr (h l (List.mem_cons_self _ _))
    have hstep : processItem att st l
        = { st with stats := { st.stats with
            skipped := st.stats.skipped + 1 } } := by
      unfold processItem
      rw [if_pos hc]
    rw [hstep]
    obtain ⟨h1, h2, h3⟩ :=
      ih { st with stats := { st.stats with
            skipped := st.stats.skipped + 1 } }
        (fun law hm => h law (List.mem_cons_of_mem _ hm))
    refine ⟨?_, h2, h3⟩
    rw [h1]
    simp [List.length_cons]
    omega

/-- C9: an item whose output file exists when claimed is skipped without any
scraping (the attempt outcome is never consulted), counted as skipped and
not successful; consequently, with deterministic per-item outcomes, a second
scheduler run over the unchanged worklist and output directory records zero
additional successes, and when the first run succeeded on every item the
second run skips every item. -/
theorem c9_skip_and_resume :
    (∀ (att att' : InputLaw → Bool) (st : SchedState) (law : InputLaw),
      st.files.contains (extractLawId law.link) = true →
      processItem att st law = processItem att' st law
      ∧ (processItem att st law).stats.skipped = st.stats.skipped + 1
      ∧ (processItem att st law).stats.successful = st.stats.successful
      ∧ (processItem att st law).stats.processed = st.stats.processed
      ∧ (processItem att st law).files = st.files)
    ∧ (∀ (att : InputLaw → Bool) (files0 : List (Option (List Char)))
        (laws : List InputLaw),
        (runScheduler att (runScheduler att files0 laws).files
            laws).stats.successful = 0)
    ∧ (∀ (att : InputLaw → Bool) (files0 : List (Option (List Char)))
        (laws : List InputLaw),
        (∀ law ∈ laws, att law = true) →
        (runScheduler att (runScheduler att files0 laws).files
            laws).stats.skipped = laws.length
        ∧ (runScheduler att (runScheduler att files0 laws).files
            laws).stats.successful = 0) := by
  refine ⟨?_, ?_, ?_⟩
  · intro att att' st law hc
    have hstep : ∀ (a : InputLaw → Bool), processItem a st law
        = { st with stats := { st.stats with
            skipped := st.stats.skipped + 1 } } := by
      intro a
      unfold processItem
      rw [if_pos hc]
    rw [hstep att, hstep att']
    exact ⟨rfl, rfl, rfl, rfl, rfl⟩
  · intro att files0 laws
    exact runScheduler_no_new_success att laws _
      (fun law hm ha =>
        runScheduler_success_persisted att laws _ law hm ha)
  · intro att files0 laws hall
    have h := runScheduler_all_skipped att laws
      { files := (runScheduler att files0 laws).files, stats := {} }
      (fun law hm =>
        runScheduler_success_persisted att laws _ law hm (hall law hm))
    constructor
    · unfold runScheduler at h ⊢
      rw [h.1]
      simp
    · exact h.2.1

/-- Witness for C9: one item, always-successful attempts; the second run
skips the single item and records no success. -/
theorem c9_skip_and_resume_witness :
    (runScheduler attAlways (runScheduler attAlways [] [sampleItem]).files
        [sampleItem]).stats.skipped = [sampleItem].length
    ∧ (runScheduler attAlways (runScheduler attAlways [] [sampleItem]).files
        [sampleItem]).stats.successful = 0 :=
  c9_skip_and_resume.2.2 attAlways [] [sampleItem] (by
    intro law hm
    rfl)

/-- C9 counterexample: with deterministic always-failing attempts, the
single item fails in the first run and is re-attempted (not skipped) in the
second run over the unchanged worklist and output directory: the claimed
"every item skipped" does not hold, although no additional success is
recorded. -/
theorem c9_failed_items_reattempted :
    (runScheduler attNever (runScheduler attNever [] [sampleItem]).files
        [sampleItem]).stats.skipped = 0
    ∧ [sampleItem].length = 1
    ∧ (runScheduler attNever (runScheduler attNever [] [sampleItem]).files
        [sampleItem]).stats.failed = 1
    ∧ (runScheduler attNever (runScheduler attNever [] [sampleItem]).files
        [sampleItem]).stats.successful = 0 := by decide

/-- The size-strategy loop appends batches whose laws concatenate to the
worklist suffix from the current index. -/
theorem createBatchesBySizeAux_flatten (batchSize : Nat)
    (laws : List InputLaw) (hbs : 0 < batchSize) :
    ∀ (fuel i : Nat) (acc : List Batch), laws.length - i ≤ fuel →
      ((createBatchesBySizeAux batchSize laws fuel i acc).map
          Batch.laws).flatten
        = ((acc.map Batch.laws).flatten) ++ laws.drop i := by
  intro fuel
  induction fuel with
  | zero =>
    intro i acc hf
    rw [show createBatchesBySizeAux batchSize laws 0 i acc = acc from rfl,
      List.drop_eq_nil_of_le (by omega), List.append_nil]
  | succ fuel ih =>
    intro i acc hf
    rw [createBatchesBySizeAux]
    by_cases hc : 0 < batchSize ∧ i < laws.length
    · rw [if_pos hc]
      rw [ih (i + batchSize) _ (by omega)]
      rw [List.map_append, List.flatten_append]
      simp only [List.map_cons, List.map_nil, List.flatten_cons,
        List.flatten_nil, List.append_nil]
      rw [List.append_assoc]
      congr 1
      rw [show laws.drop (i + batchSize) = (laws.drop i).drop batchSize from by
        rw [List.drop_drop]]
      exact List.take_append_drop _ _
    · rw [if_neg hc]
      rw [List.drop_eq_nil_of_le (by omega), List.append_nil]

/-- The size strategy partitions the worklist exactly: the concatenation of
its batches' laws is the input list. -/
theorem createBatchesBySize_flatten (o : BatchOptions) (laws : List InputLaw)
    (hbs : 0 < o.batchSize) :
    ((createBatchesBySize o laws).map Batch.laws).flatten = laws := by
  unfold createBatchesBySize
  rw [createBatchesBySizeAux_flatten o.batchSize laws hbs (laws.length + 1) 0
    [] (by omega)]
  simp

/-- Chunking with a positive size loses no element: the chunks concatenate
back to the list. -/
theorem chunksOfPairsAux_flatten (n : Nat) (hn : 0 < n) :
    ∀ (fuel : Nat) (l : List (Nat × InputLaw)), l.length ≤ fuel →
      (chunksOfPairsAux n fuel l).flatten = l := by
  intro fuel
  induction fuel with
  | zero =>
    intro l hf
    have : l = [] := List.length_eq_zero.mp (by omega)
    subst this
    rfl
  | succ fuel ih =>
    intro l hf
    rw [chunksOfPairsAux]
    by_cases hc : l = [] ∨ n = 0
    · rw [if_pos hc]
      rcases hc with hc | hc
      · subst hc; rfl
      · omega
    · rw [if_neg hc]
      rw [List.flatten_cons, ih (l.drop n) (by
        simp only [List.length_drop]
        omega)]
      exact List.take_append_drop _ _

/-- Chunks of the wrapper concatenate back to the list. -/
theorem chunksOfPairs_flatten (n : Nat) (hn : 0 < n)
    (l : List (Nat × InputLaw)) : (chunksOfPairs n l).flatten = l :=
  chunksOfPairsAux_flatten n hn (l.length + 1) l (by omega)

/-- Mapping a function of the payload over an index-paired list forgets the
indices. -/
theorem enumFrom_map_snd_comp {α β : Type} (g : α → β) :
    ∀ (l : List α) (n : Nat),
      (List.enumFrom n l).map (fun c => g c.2) = l.map g := by
  intro l
  induction l with
  | nil => intro n; rfl
  | cons x xs ih =>
    intro n
    rw [List.enumFrom_cons, List.map_cons, List.map_cons, ih]

/-- Renumbering batch indices after emission leaves the batches' law lists
unchanged. -/
theorem enumFrom_reindex_laws :
    ∀ (u : List Batch) (n : Nat),
      ((List.enumFrom n u).map (fun b => { b.2 with batchIndex := b.1 })).map
          Batch.laws
        = u.map Batch.laws := by
  intro u
  induction u with
  | nil => intro n; rfl
  | cons x xs ih =>
    intro n
    rw [List.enumFrom_cons, List.map_cons, List.map_cons, List.map_cons, ih]

/-- The batches emitted for one year concatenate to that year's group. -/
theorem yearBatchesFor_flatten (o : BatchOptions) (laws : List InputLaw)
    (y : Nat) (hbs : 0 < o.batchSize) :
    ((yearBatchesFor o laws y).map Batch.laws).flatten
      = (yearGroup laws y).map Prod.snd := by
  unfold yearBatchesFor
  by_cases hc : o.batchSize < (yearGroup laws y).length
  · rw [if_pos hc]
    rw [List.map_map]
    rw [show ((fun b => b.laws) ∘ fun c : Nat × List (Nat × InputLaw) =>
        ({ batchIndex := 0, laws := c.2.map (fun p => p.2),
           size := c.2.length, startIndex := (c.2.headD dummyPair).1,
           endIndex := (c.2.getLastD dummyPair).1 + 1, year := some y,
           subBatch := some (c.1 + 1) } : Batch))
        = fun c : Nat × List (Nat × InputLaw) => c.2.map (fun p => p.2)
      from rfl]
    rw [show List.enum (chunksOfPairs o.batchSize (yearGroup laws y))
        = List.enumFrom 0 (chunksOfPairs o.batchSize (yearGroup laws y))
      from rfl]
    rw [enumFrom_map_snd_comp (List.map (fun p : Nat × InputLaw => p.2))
      (chunksOfPairs o.batchSize (yearGroup laws y)) 0]
    rw [← List.map_flatten, chunksOfPairs_flatten o.batchSize hbs]
  · rw [if_neg hc]
    simp

/-- Distinct keys covering a list let the per-key filters partition it. -/
theorem flatten_groups_perm {α : Type} (key : α → Nat) :
    ∀ (ys : List Nat), ys.Nodup → ∀ (l : List α),
      (∀ x ∈ l, key x ∈ ys) →
      ((ys.map (fun y => l.filter (fun x => key x == y))).flatten).Perm l := by
  intro ys
  induction ys with
  | nil =>
    intro _ l hcov
    cases l with
    | nil => simp
    | cons x xs =>
      exact absurd (hcov x (List.mem_cons_self _ _)) (List.not_mem_nil _)
  | cons y ys ih =>
    intro hnd l hcov
    rw [List.map_cons, List.flatten_cons]
    have hyni : y ∉ ys := (List.nodup_cons.mp hnd).1
    have htail : ys.map (fun y' => l.filter (fun x => key x == y'))
        = ys.map (fun y' =>
            (l.filter (fun x => !(key x == y))).filter
              (fun x => key x == y')) := by
      apply List.map_congr_left
      intro y' hy'
      rw [List.filter_filter]
      apply List.filter_congr
      intro x hx
      cases hxy : (key x == y') with
      | false => rfl
      | true =>
        have hky : key x = y' := by
          have := of_decide_eq_true hxy
          exact this
        have : ¬(key x == y) = true := by
          intro hk
          have := of_decide_eq_true hk
          rw [hky] at this
          exact hyni (this ▸ hy')
        simp [Bool.eq_false_iff.mpr this]
    rw [htail]
    have hcov' : ∀ x ∈ l.filter (fun x => !(key x == y)), key x ∈ ys := by
      intro x hx
      obtain ⟨hxl, hxf⟩ := List.mem_filter.mp hx
      rcases List.mem_cons.mp (hcov x hxl) with h | h
      · exfalso
        rw [h] at hxf
        simp at hxf
      · exact h
    have hperm := ih (List.Nodup.of_cons hnd) _ hcov'
    exact (hperm.append_left _).trans (List.filter_append_perm _ l)

/-- The year strategy's batches concatenate to a permutation of the input. -/
theorem createBatchesByYear_flatten_perm (o : BatchOptions)
    (laws : List InputLaw) (hbs : 0 < o.batchSize) :
    (((createBatchesByYear o laws).map Batch.laws).flatten).Perm laws := by
  unfold createBatchesByYear
  dsimp only
  rw [show List.enum (((laws.enum.map (fun p => extractYearFromLaw p.2)).dedup.mergeSort
        (fun a b => if o.sortOrderDesc then decide (b ≤ a)
          else decide (a ≤ b))).map (yearBatchesFor o laws)).flatten
      = List.enumFrom 0 (((laws.enum.map (fun p => extractYearFromLaw p.2)).dedup.mergeSort
        (fun a b => if o.sortOrderDesc then decide (b ≤ a)
          else decide (a ≤ b))).map (yearBatchesFor o laws)).flatten
      from rfl]
  rw [enumFrom_reindex_laws]
  set sortedYears := ((laws.enum.map (fun p => extractYearFromLaw p.2)).dedup.mergeSort
    (fun a b => if o.sortOrderDesc then decide (b ≤ a)
      else decide (a ≤ b))) with hsy
  have hstep : ∀ (ys : List Nat),
      (((ys.map (yearBatchesFor o laws)).flatten).map Batch.laws).flatten
        = ((ys.map (fun y => yearGroup laws y)).flatten).map Prod.snd := by
    intro ys
    induction ys with
    | nil => rfl
    | cons y ys ih =>
      rw [List.map_cons, List.flatten_cons, List.map_append,
        List.flatten_append, ih, yearBatchesFor_flatten o laws y hbs,
        List.map_cons, List.flatten_cons, List.map_append]
  rw [hstep]
  have hnd : sortedYears.Nodup :=
    (List.mergeSort_perm _ _).symm.nodup (List.nodup_dedup _)
  have hcov : ∀ p ∈ laws.enum,
      (fun q : Nat × InputLaw => extractYearFromLaw q.2) p ∈ sortedYears := by
    intro p hp
    rw [hsy]
    refine (List.mergeSort_perm _ _).mem_iff.mpr ?_
    exact List.mem_dedup.mpr (List.mem_map_of_mem _ hp)
  have hgp := flatten_groups_perm
    (fun q : Nat × InputLaw => extractYearFromLaw q.2) sortedYears hnd
    laws.enum hcov
  have := hgp.map Prod.snd
  rw [List.enum_map_snd] at this
  exact this

/-- C6: for every worklist and every partitioning strategy, the batches of
the sorted worklist concatenate, in batch-index order, to a permutation of
that sorted worklist — no item repeated, no item omitted. -/
theorem c6_batches_partition (o : BatchOptions) (laws : List InputLaw)
    (hbs : 0 < o.batchSize) (strategy : BatchStrategy) :
    (((createBatchesByStrategy o strategy
        (sortLawsChronologically o laws)).map Batch.laws).flatten).Perm
      (sortLawsChronologically o laws) := by
  cases strategy with
  | size =>
    rw [show createBatchesByStrategy o BatchStrategy.size
        (sortLawsChronologically o laws)
        = createBatchesBySize o (sortLawsChronologically o laws) from rfl]
    rw [createBatchesBySize_flatten o _ hbs]
  | equal =>
    rw [show createBatchesByStrategy o BatchStrategy.equal
        (sortLawsChronologically o laws)
        = createBatchesBySize o (sortLawsChronologically o laws) from rfl]
    rw [createBatchesBySize_flatten o _ hbs]
  | year =>
    exact createBatchesByYear_flatten_perm o _ hbs

/-- Witness for C6 at a three-law worklist, batch size two, year strategy. -/
theorem c6_batches_partition_witness :
    (((createBatchesByStrategy sampleSmallBatchOptions BatchStrategy.year
        (sortLawsChronologically sampleSmallBatchOptions
          sampleThreeLaws)).map Batch.laws).flatten).Perm
      (sortLawsChronologically sampleSmallBatchOptions sampleThreeLaws) :=
  c6_batches_partition sampleSmallBatchOptions sampleThreeLaws (by decide)
    BatchStrategy.year
